import Mathlib

/-!
Verification development for the maily mail client backend
(src/tauri/src-tauri/src/mail.rs and src/tauri/src-tauri/src/imap_queue.rs).

The Rust source is shallowly embedded: the SQLite cache becomes a record of
row lists, the remote IMAP mailbox becomes a fixed remote state record, and
external library calls (chrono date parsing, ammonia HTML sanitizing,
html2text conversion) become function parameters, since the Rust code treats
them as black boxes.  Local-store (rusqlite) statement execution is modelled
as infallible; remote (network) operations carry explicit failure outcomes.
-/

set_option autoImplicit false

namespace Maily

/-! ## String helpers mirroring the Rust std string operations used in mail.rs -/

/-- Rust `s.chars().take(n).collect::<String>()`. -/
def take_chars (n : Nat) (s : String) : String := ⟨s.data.take n⟩

/-- Rust `s.replace('\n', " ")`: each newline char becomes one space. -/
def replace_newlines (s : String) : String :=
  ⟨s.data.map (fun c => if c = '\n' then ' ' else c)⟩

/-- Rust `s.replace('\r', "")`: carriage returns are removed. -/
def remove_crs (s : String) : String :=
  ⟨s.data.filter (fun c => decide (c ≠ '\r'))⟩

/-- ASCII lowering of one character (the fragment of Rust `to_lowercase`
relevant to mimetypes and error texts). -/
def asciiToLower (c : Char) : Char :=
  if 'A' ≤ c ∧ c ≤ 'Z' then Char.ofNat (c.toNat + 32) else c

/-- Rust `str::to_lowercase` on ASCII content. -/
def lowerString (s : String) : String := ⟨s.data.map asciiToLower⟩

/-- Whitespace test used by Rust `str::trim` (ASCII portion of
`char::is_whitespace`; the mail snippets at issue are ASCII-controlled). -/
def rustIsWhitespace (c : Char) : Bool :=
  c = ' ' || c = '\t' || c = '\n' || c = '\r' || c = '\u000B' || c = '\u000C'

/-- Drop leading and trailing whitespace from a character list. -/
def trim_chars (l : List Char) : List Char :=
  ((l.dropWhile rustIsWhitespace).reverse.dropWhile rustIsWhitespace).reverse

/-- Rust `str::trim`. -/
def rust_trim (s : String) : String := ⟨trim_chars s.data⟩

/-- The snippet post-processing chain of `generate_snippet` in mail.rs:
`.chars().take(200).collect()` then `.replace('\n', " ")` then
`.replace('\r', "")` then `.trim()`. -/
def snippet_pipeline (s : String) : String :=
  rust_trim (remove_crs (replace_newlines (take_chars 200 s)))

/-! ## Message parsing (mail.rs `extract_body` / `generate_snippet`)

A parsed MIME message is a tree of parts.  `body` is `some` when the part's
`get_body()` decode succeeds.  The external converters `ammonia::clean` and
`html2text::from_read` are passed in as opaque functions. -/

/-- A node of the `mailparse::ParsedMail` part tree. -/
inductive MailPart where
  | part (mimetype : String) (body : Option String) (subparts : List MailPart)

mutual

/-- mail.rs `extract_body_recursive`: record the first `text/html` and the
first `text/plain` body in depth-first pre-order. -/
def extract_body_walk (p : MailPart) (acc : String × String) : String × String :=
  match p with
  | .part ct body subs =>
    let ctl := lowerString ct
    let acc1 :=
      if ctl = "text/html" ∧ acc.1 = "" then
        (match body with | some b => b | none => acc.1, acc.2)
      else if ctl = "text/plain" ∧ acc.2 = "" then
        (acc.1, match body with | some b => b | none => acc.2)
      else acc
    extract_body_walk_list subs acc1

/-- Fold `extract_body_walk` over a subpart list, left to right. -/
def extract_body_walk_list (ps : List MailPart) (acc : String × String) : String × String :=
  match ps with
  | [] => acc
  | p :: rest => extract_body_walk_list rest (extract_body_walk p acc)

end

/-- mail.rs `generate_snippet`: prefer the plain-text body, else strip the
HTML via `html2text` (here the opaque `htmlToText`). -/
def generate_snippet (htmlToText : String → String) (text_body html_body : String) : String :=
  if text_body ≠ "" then snippet_pipeline text_body
  else if html_body ≠ "" then snippet_pipeline (htmlToText html_body)
  else ""

/-- mail.rs `extract_body`: returns `(body_html, snippet)`.  `clean` stands
for `ammonia::clean`, `htmlToText` for `html2text::from_read`. -/
def extract_body (clean htmlToText : String → String) (p : MailPart) : String × String :=
  let walked := extract_body_walk p ("", "")
  let html_body := walked.1
  let text_body := walked.2
  if html_body ≠ "" then
    (clean html_body, generate_snippet htmlToText text_body html_body)
  else if text_body ≠ "" then
    ("<pre>" ++ clean text_body ++ "</pre>", take_chars 200 text_body)
  else ("", "")

/-! ## Local cache store (mail.rs SCHEMA and the SQLite helpers)

Each table of the SQLite schema becomes a list of row records.  SQL filtering
on `account = ?1 AND mailbox = ?2 (AND uid = ?3)` becomes a `List.filter`
with a decidable key predicate.  Enabling `PRAGMA foreign_keys=ON` together
with the `ON DELETE CASCADE` foreign key of `attachments` means a DELETE on
`emails` also removes that row's attachment rows; the delete operations model
that cascade. -/

/-- mail.rs `Attachment` (serde struct stored per message). -/
structure Attachment where
  part_id : String
  filename : String
  content_type : String
  size : Int
  encoding : String
deriving Repr, DecidableEq

/-- mail.rs `Email` (the parsed message record handed to the upsert). -/
structure Email where
  uid : Nat
  message_id : String
  internal_date : String
  fromAddr : String
  reply_to : String
  toAddr : String
  cc : String
  subject : String
  date : String
  snippet : String
  body_html : String
  unread : Bool
  attachments : List Attachment
deriving Repr, DecidableEq

/-- One row of the `emails` table.  `internal_date` is the INTEGER column
(the rfc3339 string parsed to a unix timestamp on insert). -/
structure EmailRow where
  account : String
  mailbox : String
  uid : Nat
  message_id : String
  internal_date : Int
  from_addr : String
  reply_to : String
  to_addr : String
  cc : String
  subject : String
  date : String
  snippet : String
  body_html : String
  unread : Bool
deriving Repr, DecidableEq

/-- One row of the `attachments` table. -/
structure AttachmentRow where
  account : String
  mailbox : String
  email_uid : Nat
  part_id : String
  filename : String
  content_type : String
  size : Int
  encoding : String
deriving Repr, DecidableEq

/-- One row of the `mailbox_metadata` table. -/
structure MailboxMetaRow where
  account : String
  mailbox : String
  uid_validity : Nat
  last_sync : Int
deriving Repr, DecidableEq

/-- One row of the `op_logs` audit table. -/
structure OpLogRow where
  account : String
  mailbox : String
  operation : String
  uid : Nat
  status : String
  error : String
  created_at : Int
  processed_at : Int
deriving Repr, DecidableEq

/-- The cache database: the four tables touched by the sync/queue core. -/
structure Db where
  emails : List EmailRow
  attachments : List AttachmentRow
  mailbox_metadata : List MailboxMetaRow
  op_logs : List OpLogRow
deriving Repr, DecidableEq

/-- The empty database. -/
def emptyDb : Db := ⟨[], [], [], []⟩

/-- Key predicate `account = a AND mailbox = m AND uid = u` on `emails`. -/
def emailKey (a m : String) (u : Nat) (r : EmailRow) : Bool :=
  decide (r.account = a ∧ r.mailbox = m ∧ r.uid = u)

/-- Key predicate `account = a AND mailbox = m AND email_uid = u` on
`attachments`. -/
def attKey (a m : String) (u : Nat) (r : AttachmentRow) : Bool :=
  decide (r.account = a ∧ r.mailbox = m ∧ r.email_uid = u)

/-- Scope predicate `account = a AND mailbox = m` on `emails`. -/
def emailScope (a m : String) (r : EmailRow) : Bool :=
  decide (r.account = a ∧ r.mailbox = m)

/-- The `emails` row the upsert writes for a message.  `pd` is chrono's
`parse_from_rfc3339(..).map(timestamp).unwrap_or(0)`. -/
def emailRowOf (pd : String → Int) (a m : String) (e : Email) : EmailRow :=
  { account := a, mailbox := m, uid := e.uid, message_id := e.message_id
    internal_date := pd e.internal_date, from_addr := e.fromAddr
    reply_to := e.reply_to, to_addr := e.toAddr, cc := e.cc
    subject := e.subject, date := e.date, snippet := e.snippet
    body_html := e.body_html, unread := e.unread }

/-- The `attachments` row written for one attachment of a message. -/
def attRowOf (a m : String) (u : Nat) (at' : Attachment) : AttachmentRow :=
  { account := a, mailbox := m, email_uid := u, part_id := at'.part_id
    filename := at'.filename, content_type := at'.content_type
    size := at'.size, encoding := at'.encoding }

/-- mail.rs `save_email_to_db`: `INSERT OR REPLACE` of the email row (the
primary key `(account, mailbox, uid)` makes it a replace), then
`DELETE FROM attachments` for that key, then insert the message's
attachment list. -/
def save_email_to_db (pd : String → Int) (a m : String) (e : Email) (db : Db) : Db :=
  { db with
    emails := db.emails.filter (fun r => !(emailKey a m e.uid r)) ++ [emailRowOf pd a m e]
    attachments := db.attachments.filter (fun r => !(attKey a m e.uid r)) ++
      e.attachments.map (attRowOf a m e.uid) }

/-- mail.rs `delete_email_from_cache`: `DELETE FROM emails WHERE key`;
the `ON DELETE CASCADE` foreign key removes the attachment rows too. -/
def delete_email_from_cache (a m : String) (u : Nat) (db : Db) : Db :=
  { db with
    emails := db.emails.filter (fun r => !(emailKey a m u r))
    attachments := db.attachments.filter (fun r => !(attKey a m u r)) }

/-- The `UPDATE emails SET unread = ?1 WHERE key` statement used by
`update_email_cache_only` and the sync flag-update loops. -/
def update_unread_in_db (a m : String) (u : Nat) (unread : Bool) (db : Db) : Db :=
  { db with
    emails := db.emails.map (fun r =>
      if emailKey a m u r then { r with unread := unread } else r) }

/-- mail.rs `update_email_body_in_db` (prefetch): set body and snippet. -/
def update_email_body_in_db (a m : String) (u : Nat) (body_html snippet : String)
    (db : Db) : Db :=
  { db with
    emails := db.emails.map (fun r =>
      if emailKey a m u r then { r with body_html := body_html, snippet := snippet } else r) }

/-- Insert a value into a set held as a duplicate-free list (the
`HashSet::insert` of the Rust code). -/
def setInsert (l : List Nat) (u : Nat) : List Nat :=
  if u ∈ l then l else l ++ [u]

/-- mail.rs `get_cached_uids`: the set of uids cached for `(a, m)`
(a `HashSet` in the source, a deduplicated list here). -/
def get_cached_uids (db : Db) (a m : String) : List Nat :=
  ((db.emails.filter (emailScope a m)).map (·.uid)).dedup

/-- Insertion step for sorting email rows by `internal_date DESC`. -/
def insertByDateDesc (r : EmailRow) : List EmailRow → List EmailRow
  | [] => [r]
  | x :: xs =>
    if x.internal_date < r.internal_date then r :: x :: xs
    else x :: insertByDateDesc r xs

/-- The `ORDER BY internal_date DESC` of the list/prefetch queries
(ties are left in an unspecified but fixed order, as in the spec). -/
def sortByDateDesc (l : List EmailRow) : List EmailRow :=
  l.foldr insertByDateDesc []

/-- mail.rs `get_uids_without_body`: uids with empty `body_html`,
most recent first, limited. -/
def get_uids_without_body (db : Db) (a m : String) (limit : Nat) : List Nat :=
  (((sortByDateDesc (db.emails.filter (fun r =>
      decide (r.account = a ∧ r.mailbox = m ∧ r.body_html = "")))).map (·.uid)).take limit)

/-- mail.rs `delete_stale_emails`: delete every cached uid not in the server
uid set; returns the number of delete statements that ran. -/
def delete_stale_emails (a m : String) (server_uids : List Nat) (db : Db) : Nat × Db :=
  let cached := get_cached_uids db a m
  let stale := cached.filter (fun u => decide (u ∉ server_uids))
  (stale.length, stale.foldl (fun d u => delete_email_from_cache a m u d) db)

/-- The referential-integrity invariant of the schema's foreign key: every
attachments row references an existing emails row with the same
(account, mailbox, uid) key. -/
def attachments_invariant (db : Db) : Bool :=
  db.attachments.all (fun a' => db.emails.any (fun r =>
    decide (r.account = a'.account ∧ r.mailbox = a'.mailbox ∧ r.uid = a'.email_uid)))

/-- mail.rs `save_mailbox_metadata`: `INSERT OR REPLACE` of the bookmark. -/
def save_mailbox_metadata (a m : String) (uid_validity : Nat) (now : Int) (db : Db) : Db :=
  { db with
    mailbox_metadata :=
      db.mailbox_metadata.filter (fun r => !(decide (r.account = a ∧ r.mailbox = m))) ++
        [{ account := a, mailbox := m, uid_validity := uid_validity, last_sync := now }] }

/-- mail.rs `log_op`: append one audit record (insert-only table). -/
def log_op (a m op : String) (uid : Nat) (status error : String) (now : Int) (db : Db) : Db :=
  { db with
    op_logs := db.op_logs ++
      [{ account := a, mailbox := m, operation := op, uid := uid, status := status
         error := error, created_at := now, processed_at := now }] }

/-- Lightweight summary row of `list_emails_paginated` (no body). -/
structure EmailSummary where
  uid : Nat
  message_id : String
  internal_date : String
  fromAddr : String
  toAddr : String
  subject : String
  date : String
  snippet : String
  unread : Bool
  has_attachments : Bool
deriving Repr, DecidableEq

/-- mail.rs `ListEmailsResult`. -/
structure ListEmailsResult where
  emails : List EmailSummary
  total : Nat
  offset : Nat
  has_more : Bool
deriving Repr, DecidableEq

/-- Row-to-summary conversion of the paginated query, including the
correlated `EXISTS` subquery for `has_attachments`.  `fmtTs` is chrono's
`DateTime::from_timestamp(..).to_rfc3339()` formatting. -/
def toSummary (fmtTs : Int → String) (db : Db) (r : EmailRow) : EmailSummary :=
  { uid := r.uid, message_id := r.message_id, internal_date := fmtTs r.internal_date
    fromAddr := r.from_addr, toAddr := r.to_addr, subject := r.subject, date := r.date
    snippet := r.snippet, unread := r.unread
    has_attachments := db.attachments.any (fun at' =>
      decide (at'.account = r.account ∧ at'.mailbox = r.mailbox ∧ at'.email_uid = r.uid)) }

/-- mail.rs `list_emails_paginated`: count, early return on an empty
mailbox, `has_more = offset + limit < total`, and the
`ORDER BY internal_date DESC LIMIT ?3 OFFSET ?4` page. -/
def list_emails_paginated (fmtTs : Int → String) (db : Db) (a m : String)
    (offset limit : Nat) : ListEmailsResult :=
  let rows := db.emails.filter (emailScope a m)
  let total := rows.length
  if total = 0 then
    { emails := [], total := 0, offset := offset, has_more := false }
  else
    let has_more := decide (offset + limit < total)
    let page := ((sortByDateDesc rows).drop offset).take limit
    { emails := page.map (toSummary fmtTs db), total := total, offset := offset
      has_more := has_more }

/-! ## Connection pool (imap_queue.rs)

The pooled entry for one account holds an optional live session; sessions
are abstracted to numeric identifiers.  `PoolCtx` supplies the outcomes of
the external calls made while acquiring a session: `connect n` is the result
of the n-th `connect_imap_for_account` attempt within one call, and
`select s` is the outcome of `session.select(mailbox)` on session `s`
(`none` = success).  The body mirrors `with_imap_connection`; alongside the
result and final pool state it returns the list of sessions the operation
ran on and the list of sessions logged out, so that single-flight and
teardown are observable. -/

/-- imap_queue.rs `CONNECTION_TIMEOUT_SECS`. -/
def CONNECTION_TIMEOUT_SECS : Nat := 300

/-- One `PooledConnection`: the session (if any) and the idle time in
seconds since `last_used`. -/
structure PoolState where
  session : Option Nat
  idleSecs : Nat
deriving Repr, DecidableEq

/-- Outcomes of the external acquisition calls for one pool operation. -/
structure PoolCtx where
  connect : Nat → Except String Nat
  select : Nat → Option String

/-- imap_queue.rs `is_connection_error`: substring heuristic over the
lowercased error text. -/
def containsSub (needle hay : String) : Bool :=
  decide (needle.data <:+: hay.data)

/-- imap_queue.rs `is_connection_error`. -/
def is_connection_error (err : String) : Bool :=
  let e := lowerString err
  containsSub "closed" e || containsSub "reset" e || containsSub "broken pipe" e ||
  containsSub "eof" e || containsSub "connection" e || containsSub "timed out" e ||
  containsSub "bye" e

/-- Lines 106-137 of imap_queue.rs: staleness check, reconnect, mailbox
selection with one reconnect retry.  Returns (session id or propagated
error, pool session afterwards, sessions logged out). -/
def pool_acquire (ctx : PoolCtx) (st : PoolState) :
    Except String Nat × Option Nat × List Nat :=
  let is_stale := st.session.isSome && decide (st.idleSecs > CONNECTION_TIMEOUT_SECS)
  let cleared :=
    if st.session.isNone || is_stale then
      ((none : Option Nat), match st.session with | some s => [s] | none => [])
    else (st.session, [])
  match cleared with
  | (none, lg) =>
    match ctx.connect 0 with
    | .error e => (.error e, none, lg)
    | .ok s =>
      match ctx.select s with
      | none => (.ok s, some s, lg)
      | some _ =>
        match ctx.connect 1 with
        | .error e => (.error e, none, lg)
        | .ok s2 =>
          match ctx.select s2 with
          | none => (.ok s2, some s2, lg)
          | some e2 => (.error e2, some s2, lg)
  | (some s, lg) =>
    match ctx.select s with
    | none => (.ok s, some s, lg)
    | some _ =>
      match ctx.connect 0 with
      | .error e => (.error e, none, lg)
      | .ok s2 =>
        match ctx.select s2 with
        | none => (.ok s2, some s2, lg)
        | some e2 => (.error e2, some s2, lg)

/-- imap_queue.rs `with_imap_connection`: acquire (or reuse) the pooled
session, run `op` on it once, and on a connection-class failure log the
session out and clear the pool entry; the failure is returned unchanged.
Result components: op result, final pool state, sessions `op` ran on,
sessions logged out. -/
def with_imap_connection {α : Type} (ctx : PoolCtx) (op : Nat → Except String α)
    (st : PoolState) : Except String α × PoolState × List Nat × List Nat :=
  match pool_acquire ctx st with
  | (.error e, sess, lg) => (.error e, ⟨sess, st.idleSecs⟩, [], lg)
  | (.ok sid, _, lg) =>
    match op sid with
    | .error e =>
      if is_connection_error e then (.error e, ⟨none, 0⟩, [sid], lg ++ [sid])
      else (.error e, ⟨some sid, 0⟩, [sid], lg)
    | .ok v => (.ok v, ⟨some sid, 0⟩, [sid], lg)

/-- imap_queue.rs `sync_with_pool`: same pooling policy but without the
mailbox-selection step; `syncRun` stands for the
`sync_emails_with_session(session, ..)` call on the acquired session. -/
def sync_with_pool {α : Type} (ctx : PoolCtx) (syncRun : Nat → Except String α)
    (st : PoolState) : Except String α × PoolState × List Nat × List Nat :=
  let is_stale := st.session.isSome && decide (st.idleSecs > CONNECTION_TIMEOUT_SECS)
  let cleared :=
    if st.session.isNone || is_stale then
      ((none : Option Nat), match st.session with | some s => [s] | none => [])
    else (st.session, [])
  match cleared with
  | (none, lg) =>
    match ctx.connect 0 with
    | .error e => (.error e, ⟨none, st.idleSecs⟩, [], lg)
    | .ok sid =>
      match syncRun sid with
      | .error e =>
        if is_connection_error e then (.error e, ⟨none, 0⟩, [sid], lg ++ [sid])
        else (.error e, ⟨some sid, 0⟩, [sid], lg)
      | .ok v => (.ok v, ⟨some sid, 0⟩, [sid], lg)
  | (some sid, lg) =>
    match syncRun sid with
    | .error e =>
      if is_connection_error e then (.error e, ⟨none, 0⟩, [sid], lg ++ [sid])
      else (.error e, ⟨some sid, 0⟩, [sid], lg)
    | .ok v => (.ok v, ⟨some sid, 0⟩, [sid], lg)

/-! ## Operation queue (imap_queue.rs `account_worker` / `process_pending_ops`)

The per-account worker batches intents over a 100ms window in a
`HashMap<String, ImapOperation>` keyed by `kind:mailbox:uid`; a sync intent
flushes the batch first.  The map is modelled as an association list whose
`insert` replaces the value of an existing key. -/

/-- imap_queue.rs `ImapOperation`. -/
inductive ImapOperation where
  | markRead (mailbox : String) (uid : Nat) (unread : Bool)
  | delete (mailbox : String) (uid : Nat)
  | moveToTrash (mailbox : String) (uid : Nat)
  | syncMailbox (mailbox : String)
deriving Repr, DecidableEq

/-- The batching key of `account_worker` (`None` for sync intents, which are
not batched). -/
def opKey : ImapOperation → Option String
  | .markRead mb uid _ => some ("mark:" ++ mb ++ ":" ++ toString uid)
  | .delete mb uid => some ("del:" ++ mb ++ ":" ++ toString uid)
  | .moveToTrash mb uid => some ("trash:" ++ mb ++ ":" ++ toString uid)
  | .syncMailbox _ => none

/-- `HashMap::insert`: replace the value of an existing key, else add. -/
def insertReplace : List (String × ImapOperation) → String → ImapOperation →
    List (String × ImapOperation)
  | [], k, v => [(k, v)]
  | (k', v') :: rest, k, v =>
    if k' = k then (k', v) :: rest else (k', v') :: insertReplace rest k v

/-- `HashMap::get` on the pending map. -/
def lookupKey : List (String × ImapOperation) → String → Option ImapOperation
  | [], _ => none
  | (k', v) :: rest, k => if k' = k then some v else lookupKey rest k

/-- Remote commands issued by the executors (`mark_read_imap`,
`delete_imap`, `move_to_trash_imap`, `process_sync`); each carries the
mailbox selected by the pool for the call. -/
inductive RemoteCall where
  | uidStore (mailbox uidSet flags : String)
  | uidCopy (mailbox uidSet target : String)
  | expungeBox (mailbox : String)
  | syncRun (mailbox : String)
deriving Repr, DecidableEq

/-- The remote commands one executed intent issues (`tf` is the
provider-dependent trash folder of `move_to_trash_imap`). -/
def opRemoteCalls (tf : String) : ImapOperation → List RemoteCall
  | .markRead mb uid unread =>
    [.uidStore mb (toString uid)
      (if unread then "-FLAGS (\\Seen)" else "+FLAGS (\\Seen)")]
  | .delete mb uid =>
    [.uidStore mb (toString uid) "+FLAGS (\\Deleted)", .expungeBox mb]
  | .moveToTrash mb uid =>
    [.uidCopy mb (toString uid) tf, .uidStore mb (toString uid) "+FLAGS (\\Deleted)",
     .expungeBox mb]
  | .syncMailbox _ => []

/-- imap_queue.rs `process_pending_ops`, remote-call view: drain the pending
map and execute each surviving intent once. -/
def processPendingCalls (tf : String) (pending : List (String × ImapOperation)) :
    List RemoteCall :=
  (pending.map (fun kv => opRemoteCalls tf kv.2)).flatten

/-- One loop iteration of `account_worker` on a received intent: non-sync
intents are keyed into the pending map; a sync intent flushes the pending
batch and then runs the sync. -/
def workerStep (tf : String) (st : List (String × ImapOperation) × List RemoteCall)
    (op : ImapOperation) : List (String × ImapOperation) × List RemoteCall :=
  match op with
  | .syncMailbox mb =>
    ([], st.2 ++ (if st.1.isEmpty then [] else processPendingCalls tf st.1) ++ [.syncRun mb])
  | _ =>
    match opKey op with
    | some k => (insertReplace st.1 k op, st.2)
    | none => st

/-- One batching window of `account_worker`: receive the window's intents in
order, then the 100ms timeout fires and the pending batch is flushed. -/
def runWorkerWindow (tf : String) (ops : List ImapOperation) : List RemoteCall :=
  let st := ops.foldl (workerStep tf) ([], [])
  st.2 ++ (if st.1.isEmpty then [] else processPendingCalls tf st.1)

/-- One loop iteration of imap_queue.rs `process_pending_ops` (cache/audit
view): `exec` is the outcome of the queued intent's IMAP execution; delete
and move-to-trash log their outcome to `op_logs` and re-delete the cache row
on success, mark-read results are only written to stderr. -/
def process_one_pending (exec : ImapOperation → Except String Unit) (now : Int)
    (account : String) (d : Db) (kv : String × ImapOperation) : Db :=
  match kv.2 with
  | .markRead _ _ _ => d
  | .delete mb uid =>
    match exec (.delete mb uid) with
    | .error e => log_op account mb "delete" uid "failed" e now d
    | .ok _ =>
      log_op account mb "delete" uid "success" "" now
        (delete_email_from_cache account mb uid d)
  | .moveToTrash mb uid =>
    match exec (.moveToTrash mb uid) with
    | .error e => log_op account mb "move_trash" uid "failed" e now d
    | .ok _ =>
      log_op account mb "move_trash" uid "success" "" now
        (delete_email_from_cache account mb uid d)
  | .syncMailbox _ => d

/-- imap_queue.rs `process_pending_ops`: drain the pending map and execute
each surviving intent.  All errors are swallowed: the function is total and
returns only the updated database, never a failure. -/
def process_pending_ops (exec : ImapOperation → Except String Unit) (now : Int)
    (account : String) (pending : List (String × ImapOperation)) (db : Db) : Db :=
  pending.foldl (process_one_pending exec now account) db

/-! ## Sync engine (mail.rs)

A fixed remote mailbox state is a list of messages in mailbox sequence
order; every message carries its uid, its unread status (no `\Seen` flag),
the rfc3339 rendering of its INTERNALDATE (empty when absent), and the
result of parsing its raw RFC822 bytes (`none` when the body is missing or
`parse_mail` fails).  The outcomes of the remote calls a sync pass makes are
part of the remote state: the step-1 sequence FETCH, the SINCE UID SEARCH,
the step-3 flags UID FETCH, the per-batch full UID FETCH of step 4, and the
prefetch UID FETCH.  Mailbox selection is assumed to succeed (it defines the
fixed state).  The since-date string sent to the server is pure formatting
of the wall clock; its effect is captured by the search outcome itself. -/

/-- mail.rs `MIN_SYNC_EMAILS`. -/
def MIN_SYNC_EMAILS : Nat := 100

/-- mail.rs `PREFETCH_BODY_COUNT`. -/
def PREFETCH_BODY_COUNT : Nat := 10

/-- Fields of a fetched message other than uid/flags/INTERNALDATE, i.e. what
`parse_email_body` derives from the raw bytes: headers plus the
`extract_body` pair and the attachment descriptors. -/
structure EmailContent where
  message_id : String
  fromAddr : String
  reply_to : String
  toAddr : String
  cc : String
  subject : String
  date : String
  snippet : String
  body_html : String
  attachments : List Attachment
deriving Repr, DecidableEq

/-- One remote message of the fixed mailbox state. -/
structure RemoteMsg where
  uid : Nat
  unread : Bool
  internalDate : String
  content : Option EmailContent
deriving Repr, DecidableEq

/-- The fixed remote mailbox state plus the outcomes of the remote calls of
one sync pass. -/
structure RemoteState where
  uidValidity : Nat
  msgs : List RemoteMsg
  fetchSeqErr : Option String
  sinceRes : Except String (List Nat)
  missingFetchOk : Bool
  fullFetchErr : Nat → Option String
  prefetchOk : Bool

/-- mail.rs `parse_email_body`: succeeds exactly when `parse_mail` does, and
assembles the `Email` record from the parsed content plus the fetch
metadata. -/
def parse_email_body (uid : Nat) (content : Option EmailContent) (is_unread : Bool)
    (internal_date : String) : Option Email :=
  content.map (fun c =>
    { uid := uid, message_id := c.message_id, internal_date := internal_date
      fromAddr := c.fromAddr, reply_to := c.reply_to, toAddr := c.toAddr, cc := c.cc
      subject := c.subject, date := c.date, snippet := c.snippet
      body_html := c.body_html, unread := is_unread, attachments := c.attachments })

/-- A `UID FETCH` of a uid set against the fixed remote state: the messages
whose uid is in the set. -/
def uidFetch (rs : RemoteState) (uids : List Nat) : List RemoteMsg :=
  rs.msgs.filter (fun msg => decide (msg.uid ∈ uids))

/-- Fuel-based helper for `chunksOf` (structural recursion on the fuel; any
fuel at least the list length gives the real chunking for a positive chunk
size, and `chunksOf` passes exactly the length). -/
def chunksOfFuel (n : Nat) : Nat → List Nat → List (List Nat)
  | _, [] => []
  | 0, _ :: _ => []
  | fuel + 1, x :: xs => (x :: xs).take n :: chunksOfFuel n fuel ((x :: xs).drop n)

/-- `new_uids.chunks(50)`-style chunking. -/
def chunksOf (n : Nat) (l : List Nat) : List (List Nat) :=
  chunksOfFuel n l.length l

/-- Step 1 of the bounded-window sync: the last `MIN_SYNC_EMAILS` messages
by sequence number (`fetch("start_seq:*")`). -/
def step_one_window (rs : RemoteState) : List RemoteMsg :=
  let total := rs.msgs.length
  let start_seq := if total > MIN_SYNC_EMAILS then total - MIN_SYNC_EMAILS + 1 else 1
  rs.msgs.drop (start_seq - 1)

/-- The uid set collected by the step-1 fetch (`fetched_uids` before the
step-3 additions; a `HashSet` in the source). -/
def fetched0_uids (rs : RemoteState) : List Nat :=
  (step_one_window rs).foldl (fun l msg => setInsert l msg.uid) []

/-- The uid set the SINCE search returned (`recent_uids`; empty when the
search failed). -/
def since_hits (rs : RemoteState) : List Nat :=
  match rs.sinceRes with
  | .ok us => us.foldl setInsert []
  | .error _ => []

/-- Step 3: the search hits not already covered by the step-1 window. -/
def missing_uids (rs : RemoteState) : List Nat :=
  (since_hits rs).filter (fun u => decide (u ∉ fetched0_uids rs))

/-- The messages the step-3 flags fetch returned (none when the fetch was
skipped or failed). -/
def step_three_msgs (rs : RemoteState) : List RemoteMsg :=
  if (missing_uids rs).isEmpty then []
  else if rs.missingFetchOk then uidFetch rs (missing_uids rs) else []

/-- Steps 1-3 of the bounded-window sync: collect `fetched_uids` (the
server/candidate uid set, count-bounded window united with the time-bounded
search hits that were successfully flag-fetched) and `all_emails` (the
`(uid, is_unread, internal_date)` triples in fetch order). -/
def gather_candidates (rs : RemoteState) : List Nat × List (Nat × Bool × String) :=
  ((step_three_msgs rs).foldl (fun l msg => setInsert l msg.uid) (fetched0_uids rs),
   (step_one_window rs).map (fun msg => (msg.uid, msg.unread, msg.internalDate)) ++
     (step_three_msgs rs).map (fun msg => (msg.uid, msg.unread, msg.internalDate)))

/-- Upsert one fetched message if it parses, counting it as new (the body of
the step-4 per-message loop). -/
def save_fetched (pd : String → Int) (a m : String) (acc : Option String × Nat × Db)
    (msg : RemoteMsg) : Option String × Nat × Db :=
  match parse_email_body msg.uid msg.content msg.unread msg.internalDate with
  | some email => (none, acc.2.1 + 1, save_email_to_db pd a m email acc.2.2)
  | none => acc

/-- One batch of the step-4 download: once a batch fetch has failed the
remaining batches are not fetched (the Rust `?`), but rows already upserted
stay. -/
def download_batch (pd : String → Int) (rs : RemoteState) (a m : String)
    (acc : Option String × Nat × Db) (ic : Nat × List Nat) : Option String × Nat × Db :=
  match acc.1 with
  | some _ => acc
  | none =>
    match rs.fullFetchErr ic.1 with
    | some e => (some e, acc.2.1, acc.2.2)
    | none => (uidFetch rs ic.2).foldl (save_fetched pd a m) acc

/-- Step 4 of the bounded-window sync: fetch the full RFC822 content of the
new uids in batches of 50.  Returns (propagated error if any, `new_count`,
updated db). -/
def download_new_emails (pd : String → Int) (rs : RemoteState) (a m : String)
    (new_uids : List Nat) (db : Db) : Option String × Nat × Db :=
  if new_uids.isEmpty then (none, 0, db)
  else
    (chunksOf 50 new_uids).enum.foldl (download_batch pd rs a m)
      ((none : Option String), 0, db)

/-- One iteration of the flag-update loop: if this candidate is cached and
its unread flag changed, update the row and count it. -/
def update_flag_step (a m : String) (cached_uids : List Nat) (acc : Nat × Db)
    (t : Nat × Bool × String) : Nat × Db :=
  if decide (t.1 ∈ cached_uids) then
    match acc.2.emails.find? (emailKey a m t.1) with
    | some row =>
      if row.unread = t.2.1 then acc
      else (acc.1 + 1, update_unread_in_db a m t.1 t.2.1 acc.2)
    | none => acc
  else acc

/-- The flag-update loop of the sync. -/
def update_flags (a m : String) (all_emails : List (Nat × Bool × String))
    (cached_uids : List Nat) (start : Nat × Db) : Nat × Db :=
  all_emails.foldl (update_flag_step a m cached_uids) start

/-- One prefetched message: fill in its body and snippet if it parsed. -/
def prefetch_step (a m : String) (d : Db) (msg : RemoteMsg) : Db :=
  match msg.content with
  | some c => update_email_body_in_db a m msg.uid c.body_html c.snippet d
  | none => d

/-- Step 6 of the bounded-window sync: prefetch the bodies of the most
recent cached messages without one; a failed prefetch fetch (or a message
that does not parse) is skipped. -/
def prefetch_bodies (rs : RemoteState) (a m : String) (db : Db) : Db :=
  let prefetch_uids := get_uids_without_body db a m PREFETCH_BODY_COUNT
  if prefetch_uids.isEmpty then db
  else if rs.prefetchOk then
    (uidFetch rs prefetch_uids).foldl (prefetch_step a m) db
  else db

/-- mail.rs `SyncResult`. -/
structure SyncResult where
  new_emails : Nat
  updated_emails : Nat
  total_emails : Nat
  deleted_emails : Nat
deriving Repr, DecidableEq

/-- mail.rs `sync_emails_with_session`: the bounded-window engine over an
already-acquired session.  Returns the result (or the propagated remote
error) together with the database, whose mutations persist on error. -/
def sync_emails_with_session (pd : String → Int) (rs : RemoteState)
    (account_name mailbox : String) (now : Int) (db : Db) :
    Except String SyncResult × Db :=
  if rs.msgs.length = 0 then
    (.ok ⟨0, 0, 0, 0⟩, save_mailbox_metadata account_name mailbox rs.uidValidity now db)
  else
    match rs.fetchSeqErr with
    | some e => (.error e, db)
    | none =>
      let sc := gather_candidates rs
      let server_uids := sc.1
      let all_emails := sc.2
      let cached_uids := get_cached_uids db account_name mailbox
      let new_uids := (all_emails.filter (fun t => decide (t.1 ∉ cached_uids))).map (·.1)
      match download_new_emails pd rs account_name mailbox new_uids db with
      | (some e, _, db1) => (.error e, db1)
      | (none, new_count, db1) =>
        let ud := update_flags account_name mailbox all_emails cached_uids (0, db1)
        let ds := delete_stale_emails account_name mailbox server_uids ud.2
        let db4 := prefetch_bodies rs account_name mailbox ds.2
        let db5 := save_mailbox_metadata account_name mailbox rs.uidValidity now db4
        (.ok ⟨new_count, ud.1, server_uids.length, ds.1⟩, db5)

/-- mail.rs `sync_emails_improved`: the same bounded-window engine, but it
acquires its own connection and logs out at the end.  `connectErr` models a
`get_account`/`connect_imap` failure, `logoutErr` a failing final
`logout()` (both propagate in the source). -/
def sync_emails_improved (pd : String → Int) (connectErr logoutErr : Option String)
    (rs : RemoteState) (account_name mailbox : String) (now : Int) (db : Db) :
    Except String SyncResult × Db :=
  match connectErr with
  | some e => (.error e, db)
  | none =>
    if rs.msgs.length = 0 then
      let db' := save_mailbox_metadata account_name mailbox rs.uidValidity now db
      match logoutErr with
      | some e => (.error e, db')
      | none => (.ok ⟨0, 0, 0, 0⟩, db')
    else
      match rs.fetchSeqErr with
      | some e => (.error e, db)
      | none =>
        let sc := gather_candidates rs
        let server_uids := sc.1
        let all_emails := sc.2
        let cached_uids := get_cached_uids db account_name mailbox
        let new_uids := (all_emails.filter (fun t => decide (t.1 ∉ cached_uids))).map (·.1)
        match download_new_emails pd rs account_name mailbox new_uids db with
        | (some e, _, db1) => (.error e, db1)
        | (none, new_count, db1) =>
          let ud := update_flags account_name mailbox all_emails cached_uids (0, db1)
          let ds := delete_stale_emails account_name mailbox server_uids ud.2
          let db4 := prefetch_bodies rs account_name mailbox ds.2
          let db5 := save_mailbox_metadata account_name mailbox rs.uidValidity now db4
          match logoutErr with
          | some e => (.error e, db5)
          | none => (.ok ⟨new_count, ud.1, server_uids.length, ds.1⟩, db5)

/-- mail.rs `sync_emails` (the entry point that acquires its own
connection): fetches `1:*` with UID+FLAGS, downloads the uncached uids,
updates flags of cached ones, and logs out.  No time/count-bounded candidate
construction, no eviction, no prefetch, no bookmark persistence;
`deleted_emails` is always 0. -/
def sync_emails (pd : String → Int) (connectErr logoutErr : Option String)
    (rs : RemoteState) (account_name mailbox : String) (db : Db) :
    Except String SyncResult × Db :=
  match connectErr with
  | some e => (.error e, db)
  | none =>
    if rs.msgs.length = 0 then
      match logoutErr with
      | some e => (.error e, db)
      | none => (.ok ⟨0, 0, 0, 0⟩, db)
    else
      match rs.fetchSeqErr with
      | some e => (.error e, db)
      | none =>
        let server_emails := rs.msgs.map (fun msg => (msg.uid, msg.unread, msg.internalDate))
        let cached_uids := get_cached_uids db account_name mailbox
        let new_uids := (server_emails.filter (fun t => decide (t.1 ∉ cached_uids))).map (·.1)
        match download_new_emails pd rs account_name mailbox new_uids db with
        | (some e, _, db1) => (.error e, db1)
        | (none, new_count, db1) =>
          let ud := update_flags account_name mailbox server_emails cached_uids (0, db1)
          match logoutErr with
          | some e => (.error e, ud.2)
          | none => (.ok ⟨new_count, ud.1, server_emails.length, 0⟩, ud.2)

/-- The candidate uid set the spec's step A describes: the uids of the
count-bounded window. -/
def candidateA (rs : RemoteState) : List Nat :=
  (step_one_window rs).map (·.uid)

deriving instance DecidableEq for Except

/-! ## Concrete sample inputs used by witnesses and counterexamples -/

/-- Trivial stand-in for the chrono rfc3339 parse. -/
def wPd : String → Int := fun _ => 0

/-- Parsed content with empty fields and no attachments. -/
def wContent : EmailContent :=
  { message_id := "", fromAddr := "", reply_to := "", toAddr := "", cc := ""
    subject := "", date := "", snippet := "", body_html := "", attachments := [] }

/-- A remote mailbox with a single unread message of uid 1. -/
def wMsg1 : RemoteMsg :=
  { uid := 1, unread := true, internalDate := "", content := some wContent }

/-- Remote state: one message, every remote call succeeds, empty SINCE hit set. -/
def wRs1 : RemoteState :=
  { uidValidity := 7, msgs := [wMsg1], fetchSeqErr := none, sinceRes := .ok []
    missingFetchOk := true, fullFetchErr := fun _ => none, prefetchOk := true }

/-- Remote state: the mailbox is empty, every remote call succeeds. -/
def wRsEmpty : RemoteState :=
  { uidValidity := 7, msgs := [], fetchSeqErr := none, sinceRes := .ok []
    missingFetchOk := true, fullFetchErr := fun _ => none, prefetchOk := true }

/-- A cached row with uid 42 that the sample remote states no longer hold. -/
def wRow42 : EmailRow :=
  { account := "a", mailbox := "INBOX", uid := 42, message_id := "", internal_date := 0
    from_addr := "", reply_to := "", to_addr := "", cc := "", subject := "", date := ""
    snippet := "", body_html := "x", unread := true }

/-- A cache holding only the uid-42 row. -/
def wDb42 : Db :=
  { emails := [wRow42], attachments := [], mailbox_metadata := [], op_logs := [] }

/-- A two-part message: an HTML part and a plain-text part. -/
def wPartHtml : MailPart :=
  .part "multipart/alternative" none
    [.part "text/html" (some "<b>hi</b>") [], .part "text/plain" (some " hi\nthere ") []]

/-- A plain-text-only message whose body starts with whitespace and contains
a newline. -/
def wPartPlain : MailPart := .part "text/plain" (some " a\nb ") []

/-- A pool context whose connects yield session 1 then session 2 and whose
selects succeed. -/
def wCtx : PoolCtx := { connect := fun n => .ok (n + 1), select := fun _ => none }

/-- An empty pool entry. -/
def wStEmpty : PoolState := { session := none, idleSecs := 0 }

/-- Trivial stand-in for the chrono timestamp formatting. -/
def wFmt : Int → String := fun _ => ""

/-! ## Snippet post-processing lemmas -/

theorem trim_chars_length_le (l : List Char) : (trim_chars l).length ≤ l.length := by
  unfold trim_chars
  have h1 := (List.dropWhile_sublist (l := l) rustIsWhitespace).length_le
  have h2 := (List.dropWhile_sublist
    (l := (l.dropWhile rustIsWhitespace).reverse) rustIsWhitespace).length_le
  simp only [List.length_reverse] at *
  omega

theorem mem_of_mem_trim_chars {c : Char} {l : List Char} (h : c ∈ trim_chars l) :
    c ∈ l := by
  unfold trim_chars at h
  rw [List.mem_reverse] at h
  have h2 := (List.dropWhile_sublist
    (l := (l.dropWhile rustIsWhitespace).reverse) rustIsWhitespace).subset h
  rw [List.mem_reverse] at h2
  exact (List.dropWhile_sublist (l := l) rustIsWhitespace).subset h2

theorem head?_dropWhile_not {p : Char → Bool} {l : List Char} {c : Char}
    (h : (l.dropWhile p).head? = some c) : p c = false := by
  induction l with
  | nil => simp [List.dropWhile] at h
  | cons a t ih =>
    rw [List.dropWhile_cons] at h
    split at h
    · exact ih h
    · next hpa =>
      simp only [List.head?_cons, Option.some.injEq] at h
      subst h
      simpa using hpa

theorem trim_chars_getLast_not_ws {l : List Char} {c : Char}
    (h : (trim_chars l).getLast? = some c) : rustIsWhitespace c = false := by
  unfold trim_chars at h
  rw [List.getLast?_reverse] at h
  exact head?_dropWhile_not h

theorem trim_chars_head_not_ws {l : List Char} {c : Char}
    (h : (trim_chars l).head? = some c) : rustIsWhitespace c = false := by
  unfold trim_chars at h
  rw [List.head?_reverse] at h
  obtain ⟨t, ht⟩ := List.dropWhile_suffix
    (l := (l.dropWhile rustIsWhitespace).reverse) rustIsWhitespace
  have hcat : (t ++ (l.dropWhile rustIsWhitespace).reverse.dropWhile
      rustIsWhitespace).getLast? = some c := by
    rw [List.getLast?_append, h]
    rfl
  rw [ht, List.getLast?_reverse] at hcat
  exact head?_dropWhile_not hcat

theorem string_length_data (s : String) : s.length = s.data.length := rfl

theorem snippet_pipeline_data (s : String) :
    (snippet_pipeline s).data
      = trim_chars (((s.data.take 200).map (fun c => if c = '\n' then ' ' else c)).filter
          (fun c => decide (c ≠ '\r'))) := rfl

theorem snippet_pipeline_props (s : String) :
    (snippet_pipeline s).length ≤ 200 ∧
    '\n' ∉ (snippet_pipeline s).data ∧
    '\r' ∉ (snippet_pipeline s).data ∧
    (∀ c, (snippet_pipeline s).data.head? = some c → rustIsWhitespace c = false) ∧
    (∀ c, (snippet_pipeline s).data.getLast? = some c → rustIsWhitespace c = false) := by
  refine ⟨?_, ?_, ?_, ?_, ?_⟩
  · rw [string_length_data, snippet_pipeline_data]
    have h1 := trim_chars_length_le (((s.data.take 200).map
      (fun c => if c = '\n' then ' ' else c)).filter (fun c => decide (c ≠ '\r')))
    have h2 := List.length_filter_le (fun c => decide (c ≠ '\r'))
      ((s.data.take 200).map (fun c => if c = '\n' then ' ' else c))
    have h3 := List.length_take_le 200 s.data
    simp only [List.length_map] at h2
    omega
  · rw [snippet_pipeline_data]
    intro h
    have h2 := mem_of_mem_trim_chars h
    simp only [List.mem_filter, List.mem_map] at h2
    obtain ⟨⟨a, _, ha⟩, _⟩ := h2
    by_cases hc : a = '\n' <;> simp [hc] at ha
  · rw [snippet_pipeline_data]
    intro h
    have h2 := mem_of_mem_trim_chars h
    simp only [List.mem_filter, decide_eq_true_eq] at h2
    exact h2.2 rfl
  · rw [snippet_pipeline_data]
    intro c hc
    exact trim_chars_head_not_ws hc
  · rw [snippet_pipeline_data]
    intro c hc
    exact trim_chars_getLast_not_ws hc

/-- C9: the derived snippet is clipped to 200 chars with newlines collapsed,
carriage returns removed and surrounding whitespace trimmed whenever the
message has an HTML part (snippet from the text part or from the stripped
HTML); for a plain-text-only message the snippet is only the 200-char clip
of the text body, with newlines and surrounding whitespace preserved. -/
theorem c9_snippet_postprocessing (clean h2t : String → String) (p : MailPart) :
    ((extract_body_walk p ("", "")).1 ≠ "" →
      (extract_body clean h2t p).2.length ≤ 200 ∧
      '\n' ∉ (extract_body clean h2t p).2.data ∧
      '\r' ∉ (extract_body clean h2t p).2.data ∧
      (∀ c, (extract_body clean h2t p).2.data.head? = some c →
        rustIsWhitespace c = false) ∧
      (∀ c, (extract_body clean h2t p).2.data.getLast? = some c →
        rustIsWhitespace c = false)) ∧
    ((extract_body_walk p ("", "")).1 = "" →
      (extract_body clean h2t p).2 = take_chars 200 (extract_body_walk p ("", "")).2) := by
  constructor
  · intro h1
    have he : extract_body clean h2t p
        = (clean (extract_body_walk p ("", "")).1,
           generate_snippet h2t (extract_body_walk p ("", "")).2
             (extract_body_walk p ("", "")).1) := by
      simp only [extract_body]
      rw [if_pos h1]
    by_cases h2 : (extract_body_walk p ("", "")).2 = ""
    · have hg : generate_snippet h2t (extract_body_walk p ("", "")).2
          (extract_body_walk p ("", "")).1
          = snippet_pipeline (h2t (extract_body_walk p ("", "")).1) := by
        unfold generate_snippet
        rw [if_neg (by simp [h2]), if_pos h1]
      rw [he, hg]
      exact snippet_pipeline_props _
    · have hg : generate_snippet h2t (extract_body_walk p ("", "")).2
          (extract_body_walk p ("", "")).1
          = snippet_pipeline (extract_body_walk p ("", "")).2 := by
        unfold generate_snippet
        rw [if_pos h2]
      rw [he, hg]
      exact snippet_pipeline_props _
  · intro h1
    have he : extract_body clean h2t p
        = (if (extract_body_walk p ("", "")).2 ≠ "" then
            ("<pre>" ++ clean (extract_body_walk p ("", "")).2 ++ "</pre>",
              take_chars 200 (extract_body_walk p ("", "")).2)
          else ("", "")) := by
      simp only [extract_body]
      rw [if_neg (by simp [h1])]
    rw [he]
    split
    · rfl
    · next h2 =>
      simp only [ne_eq, not_not] at h2
      rw [h2]
      rfl

/-- C9 counterexample: a plain-text-only message whose snippet keeps its
newline and its surrounding whitespace, so the claimed collapse/trim does
not happen in that case. -/
theorem c9_plaintext_counterexample :
    (extract_body id id wPartPlain).2 = " a\nb " ∧
    '\n' ∈ (extract_body id id wPartPlain).2.data ∧
    (extract_body id id wPartPlain).2.data.head? = some ' ' := by
  have h : (extract_body id id wPartPlain).2 = " a\nb " := by
    simp [wPartPlain, extract_body, extract_body_walk, extract_body_walk_list,
      generate_snippet, take_chars, lowerString, asciiToLower]
  refine ⟨h, ?_, ?_⟩ <;> rw [h] <;> decide

/-- C9 witness: the HTML-present conclusion instantiated on a concrete
two-part message. -/
theorem c9_snippet_postprocessing_witness :
    (extract_body id id wPartHtml).2.length ≤ 200 ∧
    '\n' ∉ (extract_body id id wPartHtml).2.data :=
  have h := (c9_snippet_postprocessing id id wPartHtml).1 (by
    simp [wPartHtml, extract_body_walk, extract_body_walk_list, lowerString, asciiToLower])
  ⟨h.1, h.2.1⟩

/-! ## Upsert idempotence and referential integrity -/

theorem emailKey_emailRowOf (pd : String → Int) (a m : String) (e : Email) :
    emailKey a m e.uid (emailRowOf pd a m e) = true := by
  simp [emailKey, emailRowOf]

theorem attKey_attRowOf (a m : String) (u : Nat) (at' : Attachment) :
    attKey a m u (attRowOf a m u at') = true := by
  simp [attKey, attRowOf]

/-- C8: the message upsert is idempotent — a second identical
save_email_to_db call leaves the database unchanged; after the calls there
is exactly one emails row with the key and the attachment rows for that key
are exactly the message's attachment list. -/
theorem c8_upsert_idempotent (pd : String → Int) (a m : String) (e : Email) (db : Db) :
    save_email_to_db pd a m e (save_email_to_db pd a m e db) = save_email_to_db pd a m e db ∧
    ((save_email_to_db pd a m e db).emails.filter (emailKey a m e.uid)).length = 1 ∧
    (save_email_to_db pd a m e (save_email_to_db pd a m e db)).attachments.filter
        (attKey a m e.uid)
      = (save_email_to_db pd a m e db).attachments.filter (attKey a m e.uid) ∧
    (save_email_to_db pd a m e db).attachments.filter (attKey a m e.uid)
      = e.attachments.map (attRowOf a m e.uid) := by
  have hfilter : ∀ l : List EmailRow,
      (l.filter (fun r => !(emailKey a m e.uid r))).filter
        (fun r => !(emailKey a m e.uid r)) = l.filter (fun r => !(emailKey a m e.uid r)) := by
    intro l
    rw [List.filter_filter]
    simp
  have hafilter : ∀ l : List AttachmentRow,
      (l.filter (fun r => !(attKey a m e.uid r))).filter
        (fun r => !(attKey a m e.uid r)) = l.filter (fun r => !(attKey a m e.uid r)) := by
    intro l
    rw [List.filter_filter]
    simp
  have hnewe : [emailRowOf pd a m e].filter (fun r => !(emailKey a m e.uid r)) = [] := by
    simp [List.filter_cons, emailKey_emailRowOf]
  have hnewa : (e.attachments.map (attRowOf a m e.uid)).filter
      (fun r => !(attKey a m e.uid r)) = [] := by
    rw [List.filter_eq_nil_iff]
    intro x hx
    simp only [List.mem_map] at hx
    obtain ⟨at', _, rfl⟩ := hx
    simp [attKey_attRowOf]
  have hkeepa : (e.attachments.map (attRowOf a m e.uid)).filter (attKey a m e.uid)
      = e.attachments.map (attRowOf a m e.uid) := by
    rw [List.filter_eq_self]
    intro x hx
    simp only [List.mem_map] at hx
    obtain ⟨at', _, rfl⟩ := hx
    exact attKey_attRowOf a m e.uid at'
  have hdrop : ∀ l : List AttachmentRow,
      (l.filter (fun r => !(attKey a m e.uid r))).filter (attKey a m e.uid) = [] := by
    intro l
    rw [List.filter_filter]
    simp only [Bool.and_not_self]
    exact List.filter_false _
  refine ⟨?_, ?_, ?_, ?_⟩
  · simp only [save_email_to_db, List.filter_append, hfilter, hafilter, hnewe, hnewa,
      List.append_nil]
  · have hdrope : ∀ l : List EmailRow,
        (l.filter (fun r => !(emailKey a m e.uid r))).filter (emailKey a m e.uid) = [] := by
      intro l
      rw [List.filter_filter]
      simp only [Bool.and_not_self]
      exact List.filter_false _
    simp only [save_email_to_db, List.filter_append, hdrope, List.nil_append,
      List.filter_cons, emailKey_emailRowOf]
    simp
  · simp only [save_email_to_db, List.filter_append, hafilter, hnewa, List.append_nil]
  · simp only [save_email_to_db, List.filter_append, hdrop, hkeepa, List.nil_append]

theorem attachments_invariant_iff (db : Db) :
    attachments_invariant db = true ↔
      ∀ a' ∈ db.attachments, ∃ r ∈ db.emails,
        r.account = a'.account ∧ r.mailbox = a'.mailbox ∧ r.uid = a'.email_uid := by
  simp [attachments_invariant, List.all_eq_true, List.any_eq_true]

theorem attachments_invariant_save (pd : String → Int) (a m : String) (e : Email)
    (db : Db) (h : attachments_invariant db = true) :
    attachments_invariant (save_email_to_db pd a m e db) = true := by
  rw [attachments_invariant_iff] at h ⊢
  intro a' ha'
  simp only [save_email_to_db, List.mem_append, List.mem_filter, List.mem_map] at ha'
  rcases ha' with ⟨hold, hkey⟩ | ⟨att, _, hrow⟩
  · obtain ⟨r, hr, h1, h2, h3⟩ := h a' hold
    refine ⟨r, ?_, h1, h2, h3⟩
    simp only [save_email_to_db, List.mem_append, List.mem_filter]
    left
    refine ⟨hr, ?_⟩
    simp only [Bool.not_eq_true', emailKey, decide_eq_false_iff_not]
    rintro ⟨ha, hm, hu⟩
    simp only [Bool.not_eq_true', attKey, decide_eq_false_iff_not] at hkey
    exact hkey ⟨by rw [← h1, ha], by rw [← h2, hm], by rw [← h3, hu]⟩
  · refine ⟨emailRowOf pd a m e, ?_, ?_, ?_, ?_⟩
    · simp [save_email_to_db]
    · rw [← hrow]; rfl
    · rw [← hrow]; rfl
    · rw [← hrow]; rfl

theorem attachments_invariant_delete (a m : String) (u : Nat) (db : Db)
    (h : attachments_invariant db = true) :
    attachments_invariant (delete_email_from_cache a m u db) = true := by
  rw [attachments_invariant_iff] at h ⊢
  intro a' ha'
  simp only [delete_email_from_cache, List.mem_filter] at ha'
  obtain ⟨hold, hkey⟩ := ha'
  obtain ⟨r, hr, h1, h2, h3⟩ := h a' hold
  refine ⟨r, ?_, h1, h2, h3⟩
  simp only [delete_email_from_cache, List.mem_filter]
  refine ⟨hr, ?_⟩
  simp only [Bool.not_eq_true', emailKey, decide_eq_false_iff_not]
  rintro ⟨ha, hm, hu⟩
  simp only [Bool.not_eq_true', attKey, decide_eq_false_iff_not] at hkey
  exact hkey ⟨by rw [← h1, ha], by rw [← h2, hm], by rw [← h3, hu]⟩

theorem attachments_invariant_update_unread (a m : String) (u : Nat) (unread : Bool)
    (db : Db) (h : attachments_invariant db = true) :
    attachments_invariant (update_unread_in_db a m u unread db) = true := by
  rw [attachments_invariant_iff] at h ⊢
  intro a' ha'
  obtain ⟨r, hr, h1, h2, h3⟩ := h a' ha'
  refine ⟨if emailKey a m u r then { r with unread := unread } else r, ?_, ?_, ?_, ?_⟩
  · simp only [update_unread_in_db, List.mem_map]
    exact ⟨r, hr, rfl⟩
  · split <;> simpa
  · split <;> simpa
  · split <;> simpa

theorem attachments_invariant_update_body (a m : String) (u : Nat) (bh sn : String)
    (db : Db) (h : attachments_invariant db = true) :
    attachments_invariant (update_email_body_in_db a m u bh sn db) = true := by
  rw [attachments_invariant_iff] at h ⊢
  intro a' ha'
  obtain ⟨r, hr, h1, h2, h3⟩ := h a' ha'
  refine ⟨if emailKey a m u r then { r with body_html := bh, snippet := sn } else r,
    ?_, ?_, ?_, ?_⟩
  · simp only [update_email_body_in_db, List.mem_map]
    exact ⟨r, hr, rfl⟩
  · split <;> simpa
  · split <;> simpa
  · split <;> simpa

theorem attachments_invariant_delete_fold (a m : String) (l : List Nat) (db : Db)
    (h : attachments_invariant db = true) :
    attachments_invariant (l.foldl (fun d u => delete_email_from_cache a m u d) db)
      = true := by
  induction l generalizing db with
  | nil => exact h
  | cons x xs ih => exact ih _ (attachments_invariant_delete a m x db h)

/-- C10: every Local Cache Store operation preserves the invariant that each
attachments row references an existing emails row with its key: the upsert,
the explicit delete, the flag and body updates, sync eviction, the bookmark
write and the audit append. -/
theorem c10_attachment_rows_never_orphaned (pd : String → Int) (a m opn status err : String)
    (u : Nat) (unread : Bool) (bh sn : String) (e : Email) (uv : Nat) (now : Int)
    (suids : List Nat) (db : Db) (h : attachments_invariant db = true) :
    attachments_invariant (save_email_to_db pd a m e db) = true ∧
    attachments_invariant (delete_email_from_cache a m u db) = true ∧
    attachments_invariant (update_unread_in_db a m u unread db) = true ∧
    attachments_invariant (update_email_body_in_db a m u bh sn db) = true ∧
    attachments_invariant ((delete_stale_emails a m suids db).2) = true ∧
    attachments_invariant (save_mailbox_metadata a m uv now db) = true ∧
    attachments_invariant (log_op a m opn u status err now db) = true := by
  refine ⟨attachments_invariant_save pd a m e db h,
    attachments_invariant_delete a m u db h,
    attachments_invariant_update_unread a m u unread db h,
    attachments_invariant_update_body a m u bh sn db h,
    attachments_invariant_delete_fold a m _ db h, h, h⟩

/-- C10 witness at a concrete database satisfying the invariant. -/
theorem c10_attachment_rows_never_orphaned_witness :
    attachments_invariant wDb42 = true ∧
    attachments_invariant (save_email_to_db wPd "a" "INBOX"
      { uid := 1, message_id := "", internal_date := "", fromAddr := "", reply_to := ""
        toAddr := "", cc := "", subject := "", date := "", snippet := "", body_html := ""
        unread := true, attachments := [⟨"1", "f.txt", "text/plain", 3, "base64"⟩] }
      wDb42) = true :=
  ⟨by decide,
   (c10_attachment_rows_never_orphaned wPd "a" "INBOX" "delete" "failed" "" 1 true "" ""
      _ 7 0 [] wDb42 (by decide)).1⟩

/-! ## Pagination -/

theorem length_insertByDateDesc (r : EmailRow) (l : List EmailRow) :
    (insertByDateDesc r l).length = l.length + 1 := by
  induction l with
  | nil => rfl
  | cons x xs ih =>
    rw [insertByDateDesc]
    split
    · rfl
    · simp [ih]

theorem length_sortByDateDesc (l : List EmailRow) :
    (sortByDateDesc l).length = l.length := by
  induction l with
  | nil => rfl
  | cons x xs ih =>
    show (insertByDateDesc x (sortByDateDesc xs)).length = xs.length + 1
    rw [length_insertByDateDesc, ih]

theorem page_length (fmtTs : Int → String) (db : Db) (a m : String) (offset limit : Nat) :
    (list_emails_paginated fmtTs db a m offset limit).emails.length
      = min limit ((db.emails.filter (emailScope a m)).length - offset) := by
  simp only [list_emails_paginated]
  split
  · next h =>
    rw [h]
    simp
  · simp [List.length_take, List.length_drop, length_sortByDateDesc]

theorem sum_page_sizes (L K n : Nat) :
    (∑ i ∈ Finset.range n, min L (K - i * L)) = min K (n * L) := by
  induction n with
  | zero => simp
  | succ n ih =>
    rw [Finset.sum_range_succ, ih, Nat.succ_mul]
    omega

/-- C7: for a cache with K rows for (account, mailbox) and page size L > 0,
the non-overlapping pages at offsets 0, L, 2L, ... together return exactly K
summaries, and has_more is true exactly when offset + L < K. -/
theorem c7_pagination_invariant (fmtTs : Int → String) (db : Db) (a m : String)
    (L n : Nat) (hL : 0 < L)
    (hn : (db.emails.filter (emailScope a m)).length ≤ n * L) :
    (∑ i ∈ Finset.range n,
        (list_emails_paginated fmtTs db a m (i * L) L).emails.length)
      = (db.emails.filter (emailScope a m)).length ∧
    ∀ offset, (list_emails_paginated fmtTs db a m offset L).has_more
      = decide (offset + L < (db.emails.filter (emailScope a m)).length) := by
  constructor
  · rw [Finset.sum_congr rfl (fun i _ => page_length fmtTs db a m (i * L) L)]
    rw [sum_page_sizes]
    omega
  · intro offset
    simp only [list_emails_paginated]
    split
    · next h =>
      rw [h]
      simp
    · rfl

/-- C7 witness on a one-row cache with page size 1. -/
theorem c7_pagination_invariant_witness :
    (∑ i ∈ Finset.range 1,
        (list_emails_paginated wFmt wDb42 "a" "INBOX" (i * 1) 1).emails.length)
      = (wDb42.emails.filter (emailScope "a" "INBOX")).length ∧
    (list_emails_paginated wFmt wDb42 "a" "INBOX" 0 1).has_more
      = decide (0 + 1 < (wDb42.emails.filter (emailScope "a" "INBOX")).length) :=
  have h := c7_pagination_invariant wFmt wDb42 "a" "INBOX" 1 1 (by decide) (by decide)
  ⟨h.1, h.2 0⟩

/-! ## Connection pool failure policy -/

/-- C4: for any operation run through the pool (with_imap_connection, and
sync_with_pool for the sync path): if the operation fails and the error text
is classified connection-class, the pooled session is logged out and the
pool entry cleared; otherwise the session is kept.  Either way the
operation's own error is returned unchanged and the operation ran exactly
once (no retry). -/
theorem c4_pool_connection_error_policy {α : Type} (ctx : PoolCtx)
    (op : Nat → Except String α) (st : PoolState) (sid : Nat) (sess : Option Nat)
    (lg : List Nat) (e : String)
    (hacq : pool_acquire ctx st = (.ok sid, sess, lg)) (hop : op sid = .error e) :
    ((is_connection_error e = true →
        with_imap_connection ctx op st = (.error e, ⟨none, 0⟩, [sid], lg ++ [sid])) ∧
     (is_connection_error e = false →
        with_imap_connection ctx op st = (.error e, ⟨some sid, 0⟩, [sid], lg))) ∧
    (∀ (syncRun : Nat → Except String α) (st' : PoolState) (sid' : Nat),
      st'.session = some sid' → st'.idleSecs ≤ CONNECTION_TIMEOUT_SECS →
      syncRun sid' = .error e →
      (is_connection_error e = true →
        sync_with_pool ctx syncRun st' = (.error e, ⟨none, 0⟩, [sid'], [sid'])) ∧
      (is_connection_error e = false →
        sync_with_pool ctx syncRun st' = (.error e, ⟨some sid', 0⟩, [sid'], []))) := by
  constructor
  · constructor <;> intro hcl <;>
      simp [with_imap_connection, hacq, hop, hcl]
  · intro syncRun st' sid' h1 h2 h3
    have hns : ¬ st'.idleSecs > CONNECTION_TIMEOUT_SECS := by omega
    constructor <;> intro hcl <;>
      simp [sync_with_pool, h1, h3, hcl, hns]

/-- C4 witness: a connection-class failure on a fresh pool entry tears the
session down; a non-connection-class failure keeps it. -/
theorem c4_pool_connection_error_policy_witness :
    with_imap_connection wCtx (fun _ => (.error "connection reset by peer" :
        Except String Unit)) wStEmpty
      = (.error "connection reset by peer", ⟨none, 0⟩, [1], [1]) ∧
    with_imap_connection wCtx (fun _ => (.error "mailbox quota exceeded" :
        Except String Unit)) wStEmpty
      = (.error "mailbox quota exceeded", ⟨some 1, 0⟩, [1], []) := by
  constructor
  · exact (c4_pool_connection_error_policy wCtx _ wStEmpty 1 (some 1) [] _
      (by decide) rfl).1.1 (by decide)
  · exact (c4_pool_connection_error_policy wCtx _ wStEmpty 1 (some 1) [] _
      (by decide) rfl).1.2 (by decide)

/-! ## Operation queue batching -/

theorem lookupKey_insertReplace (p : List (String × ImapOperation)) (ki k : String)
    (v : ImapOperation) :
    lookupKey (insertReplace p ki v) k = if ki = k then some v else lookupKey p k := by
  induction p with
  | nil => rfl
  | cons hd tl ih =>
    obtain ⟨k0, v0⟩ := hd
    by_cases h1 : k0 = ki
    · subst h1
      rw [insertReplace, if_pos rfl]
      by_cases h2 : k0 = k
      · subst h2
        simp [lookupKey]
      · simp [lookupKey, h2]
    · rw [insertReplace, if_neg h1]
      by_cases h2 : k0 = k
      · subst h2
        have hl : lookupKey ((k0, v0) :: insertReplace tl ki v) k0 = some v0 := by
          simp [lookupKey]
        rw [hl, if_neg (fun hki => h1 hki.symm)]
        simp [lookupKey]
      · simp [lookupKey, h2, ih]

theorem worker_pending_last_wins (tf : String) (ops : List ImapOperation)
    (h : ∀ op ∈ ops, opKey op ≠ none) (k : String) :
    lookupKey ((ops.foldl (workerStep tf) ([], [])).1) k
      = (ops.filter (fun op => opKey op == some k)).getLast? := by
  induction ops using List.reverseRecOn with
  | nil => rfl
  | append_singleton l op ih =>
    have hop : opKey op ≠ none := h op (by simp)
    have hl : ∀ o ∈ l, opKey o ≠ none := fun o ho => h o (by simp [ho])
    obtain ⟨k0, hk0⟩ : ∃ k0, opKey op = some k0 :=
      Option.ne_none_iff_exists'.mp hop
    rw [List.foldl_append]
    have hstep : workerStep tf (l.foldl (workerStep tf) ([], [])) op
        = (insertReplace (l.foldl (workerStep tf) ([], [])).1 k0 op,
           (l.foldl (workerStep tf) ([], [])).2) := by
      cases op <;> simp_all [workerStep, opKey]
    rw [List.foldl_cons, List.foldl_nil, hstep]
    rw [List.filter_append, List.getLast?_append]
    by_cases hk : k0 = k
    · subst hk
      have : (List.filter (fun op => opKey op == some k0) [op]) = [op] := by
        simp [List.filter_cons, hk0]
      rw [this]
      simp [lookupKey_insertReplace]
    · have : (List.filter (fun op => opKey op == some k) [op]) = [] := by
        simp [List.filter_cons, hk0, hk]
      rw [this]
      simp [lookupKey_insertReplace, hk, ih hl]

/-- C3: a mark-read(true) followed by mark-read(false) for the same
(mailbox, uid) inside one batching window produces exactly one remote
uid_store call, carrying the final state (add Seen); in general the pending
map of a sync-free window maps each batching key to the latest intent
submitted under it (last-write-wins). -/
theorem c3_batching_collapse :
    (∀ (tf mb : String) (uid : Nat),
      runWorkerWindow tf [.markRead mb uid true, .markRead mb uid false]
        = [.uidStore mb (toString uid) "+FLAGS (\\Seen)"]) ∧
    (∀ (tf : String) (ops : List ImapOperation), (∀ op ∈ ops, opKey op ≠ none) →
      ∀ k, lookupKey ((ops.foldl (workerStep tf) ([], [])).1) k
        = (ops.filter (fun op => opKey op == some k)).getLast?) := by
  constructor
  · intro tf mb uid
    simp [runWorkerWindow, workerStep, opKey, insertReplace, List.foldl_cons,
      processPendingCalls, opRemoteCalls]
  · intro tf ops h k
    exact worker_pending_last_wins tf ops h k

/-- C3 witness: the collapse and the last-write-wins lookup on a concrete
window. -/
theorem c3_batching_collapse_witness :
    runWorkerWindow "Trash" [.markRead "INBOX" 7 true, .markRead "INBOX" 7 false]
      = [.uidStore "INBOX" "7" "+FLAGS (\\Seen)"] ∧
    lookupKey (([ImapOperation.markRead "INBOX" 7 true,
        ImapOperation.markRead "INBOX" 7 false].foldl (workerStep "Trash") ([], [])).1)
        "mark:INBOX:7"
      = some (ImapOperation.markRead "INBOX" 7 false) :=
  ⟨c3_batching_collapse.1 "Trash" "INBOX" 7,
   by
    rw [c3_batching_collapse.2 "Trash"
      [ImapOperation.markRead "INBOX" 7 true, ImapOperation.markRead "INBOX" 7 false]
      (by decide) "mark:INBOX:7"]
    decide⟩

/-! ## Queue failure handling -/

theorem op_logs_mono_process_one (exec : ImapOperation → Except String Unit) (now : Int)
    (account : String) (d : Db) (kv : String × ImapOperation) (x : OpLogRow)
    (h : x ∈ d.op_logs) : x ∈ (process_one_pending exec now account d kv).op_logs := by
  unfold process_one_pending
  rcases kv with ⟨k, op⟩
  cases op with
  | markRead mb uid u => exact h
  | delete mb uid =>
    cases hex : exec (.delete mb uid) <;>
      simp [hex, log_op, delete_email_from_cache, h]
  | moveToTrash mb uid =>
    cases hex : exec (.moveToTrash mb uid) <;>
      simp [hex, log_op, delete_email_from_cache, h]
  | syncMailbox mb => exact h

theorem op_logs_mono_process_pending (exec : ImapOperation → Except String Unit)
    (now : Int) (account : String) (pending : List (String × ImapOperation)) (db : Db)
    (x : OpLogRow) (h : x ∈ db.op_logs) :
    x ∈ (process_pending_ops exec now account pending db).op_logs := by
  induction pending generalizing db with
  | nil => exact h
  | cons kv rest ih =>
    exact ih _ (op_logs_mono_process_one exec now account db kv x h)

/-- C5: failures of queued delete and move-to-trash intents are written to
the op_logs audit table and swallowed, and a window of mark-read intents
leaves the database untouched on failure — no record at all is written for
failing mark-read intents, and no failure is ever returned to the caller
(the processor is total over the window). -/
theorem c5_queue_failures_logged_and_swallowed (exec : ImapOperation → Except String Unit)
    (now : Int) (account : String) (pending : List (String × ImapOperation)) (db : Db) :
    (∀ k mb uid e, (k, ImapOperation.delete mb uid) ∈ pending →
      exec (ImapOperation.delete mb uid) = .error e →
      ({ account := account, mailbox := mb, operation := "delete", uid := uid,
         status := "failed", error := e, created_at := now, processed_at := now } : OpLogRow)
        ∈ (process_pending_ops exec now account pending db).op_logs) ∧
    (∀ k mb uid e, (k, ImapOperation.moveToTrash mb uid) ∈ pending →
      exec (ImapOperation.moveToTrash mb uid) = .error e →
      ({ account := account, mailbox := mb, operation := "move_trash", uid := uid,
         status := "failed", error := e, created_at := now, processed_at := now } : OpLogRow)
        ∈ (process_pending_ops exec now account pending db).op_logs) ∧
    ((∀ kv ∈ pending, ∃ mb uid u, kv.2 = ImapOperation.markRead mb uid u) →
      process_pending_ops exec now account pending db = db) := by
  refine ⟨?_, ?_, ?_⟩
  · intro k mb uid e hmem hexec
    induction pending generalizing db with
    | nil => cases hmem
    | cons kv rest ih =>
      rcases List.mem_cons.mp hmem with heq | hrest
      · have hstep : process_one_pending exec now account db kv
            = log_op account mb "delete" uid "failed" e now db := by
          rw [← heq]
          unfold process_one_pending
          simp [hexec]
        rw [show process_pending_ops exec now account (kv :: rest) db
            = process_pending_ops exec now account rest
                (process_one_pending exec now account db kv) from rfl]
        apply op_logs_mono_process_pending
        rw [hstep]
        simp [log_op]
      · exact ih _ hrest
  · intro k mb uid e hmem hexec
    induction pending generalizing db with
    | nil => cases hmem
    | cons kv rest ih =>
      rcases List.mem_cons.mp hmem with heq | hrest
      · have hstep : process_one_pending exec now account db kv
            = log_op account mb "move_trash" uid "failed" e now db := by
          rw [← heq]
          unfold process_one_pending
          simp [hexec]
        rw [show process_pending_ops exec now account (kv :: rest) db
            = process_pending_ops exec now account rest
                (process_one_pending exec now account db kv) from rfl]
        apply op_logs_mono_process_pending
        rw [hstep]
        simp [log_op]
      · exact ih _ hrest
  · intro hall
    induction pending generalizing db with
    | nil => rfl
    | cons kv rest ih =>
      obtain ⟨mb, uid, u, hkv⟩ := hall kv (by simp)
      have hstep : process_one_pending exec now account db kv = db := by
        unfold process_one_pending
        rw [hkv]
      show process_pending_ops exec now account rest
          (process_one_pending exec now account db kv) = db
      rw [hstep]
      exact ih _ (fun kv' h' => hall kv' (by simp [h']))

/-- C5 counterexample: the claim says every failing non-sync intent gets an
audit record, but a failing mark-read leaves op_logs empty. -/
theorem c5_markread_failure_not_logged :
    (process_pending_ops (fun _ => .error "boom") 0 "a"
      [("mark:INBOX:7", .markRead "INBOX" 7 false)] emptyDb).op_logs = [] := rfl

/-- C5 witness: a failing queued delete is recorded in op_logs. -/
theorem c5_queue_failures_logged_and_swallowed_witness :
    ({ account := "a", mailbox := "INBOX", operation := "delete", uid := 7,
       status := "failed", error := "boom", created_at := 0, processed_at := 0 } : OpLogRow)
      ∈ (process_pending_ops (fun _ => .error "boom") 0 "a"
          [("del:INBOX:7", .delete "INBOX" 7)] emptyDb).op_logs :=
  (c5_queue_failures_logged_and_swallowed (fun _ => .error "boom") 0 "a"
      [("del:INBOX:7", .delete "INBOX" 7)] emptyDb).1
    "del:INBOX:7" "INBOX" 7 "boom" (by decide) rfl

/-! ## Sync engine: non-fatal SINCE failure -/

theorem save_fetched_preserves_none (pd : String → Int) (a m : String)
    (msgs : List RemoteMsg) (acc : Option String × Nat × Db) (h : acc.1 = none) :
    (msgs.foldl (save_fetched pd a m) acc).1 = none := by
  induction msgs generalizing acc with
  | nil => exact h
  | cons msg tl ih =>
    rw [List.foldl_cons]
    apply ih
    unfold save_fetched
    cases hp : parse_email_body msg.uid msg.content msg.unread msg.internalDate
    · simpa [hp] using h
    · simp [hp]

theorem download_new_emails_fst_none (pd : String → Int) (rs : RemoteState)
    (a m : String) (new_uids : List Nat) (db : Db)
    (h : ∀ i, rs.fullFetchErr i = none) :
    (download_new_emails pd rs a m new_uids db).1 = none := by
  unfold download_new_emails
  split
  · rfl
  · suffices H : ∀ (l : List (Nat × List Nat)) (acc : Option String × Nat × Db),
        acc.1 = none → (l.foldl (download_batch pd rs a m) acc).1 = none from
      H _ _ rfl
    intro l
    induction l with
    | nil => intro acc h0; exact h0
    | cons ic tl ih =>
      intro acc h0
      rw [List.foldl_cons]
      apply ih
      unfold download_batch
      rw [h0, h ic.1]
      exact save_fetched_preserves_none pd a m _ acc h0

theorem sync_with_session_isOk (pd : String → Int) (rs : RemoteState) (a m : String)
    (now : Int) (db : Db) (h1 : rs.fetchSeqErr = none)
    (h2 : ∀ i, rs.fullFetchErr i = none) :
    (sync_emails_with_session pd rs a m now db).1.isOk = true := by
  unfold sync_emails_with_session
  split
  · rfl
  · split
    · next e' heq =>
      rw [h1] at heq
      cases heq
    · dsimp only
      split
      · next heq =>
        have hd := download_new_emails_fst_none pd rs a m
          (((gather_candidates rs).2.filter
            (fun t => decide (t.1 ∉ get_cached_uids db a m))).map (fun x => x.1)) db h2
        rw [heq] at hd
        simp at hd
      · rfl

/-- C6: a failing time-bounded SINCE search does not fail the sync pass and
is not propagated — the pass computes exactly what it computes with an empty
set B (set A alone), including diffing, eviction, prefetch and bookmark
persistence, and succeeds whenever the other fetches succeed. -/
theorem c6_since_failure_nonfatal (pd : String → Int) (rs : RemoteState) (a m : String)
    (now : Int) (db : Db) (e : String) :
    sync_emails_with_session pd { rs with sinceRes := .error e } a m now db
      = sync_emails_with_session pd { rs with sinceRes := .ok [] } a m now db ∧
    (rs.fetchSeqErr = none → (∀ i, rs.fullFetchErr i = none) →
      (sync_emails_with_session pd { rs with sinceRes := .error e } a m now db).1.isOk
        = true) := by
  constructor
  · rfl
  · intro h1 h2
    exact sync_with_session_isOk pd { rs with sinceRes := .error e } a m now db h1 h2

/-- C6 witness on the concrete one-message remote state. -/
theorem c6_since_failure_nonfatal_witness :
    sync_emails_with_session wPd { wRs1 with sinceRes := .error "SEARCH unsupported" }
        "a" "INBOX" 5 wDb42
      = sync_emails_with_session wPd { wRs1 with sinceRes := .ok [] } "a" "INBOX" 5 wDb42 ∧
    (sync_emails_with_session wPd { wRs1 with sinceRes := .error "SEARCH unsupported" }
        "a" "INBOX" 5 wDb42).1.isOk = true :=
  have h := c6_since_failure_nonfatal wPd wRs1 "a" "INBOX" 5 wDb42 "SEARCH unsupported"
  ⟨h.1, h.2 rfl (fun _ => rfl)⟩

/-! ## Sync engine: eviction completeness (membership lemmas) -/

theorem mem_setInsert {u v : Nat} {l : List Nat} :
    u ∈ setInsert l v ↔ u ∈ l ∨ u = v := by
  unfold setInsert
  split
  · next hv =>
    constructor
    · exact Or.inl
    · rintro (h | rfl)
      · exact h
      · exact hv
  · simp

theorem mem_foldl_setInsert_uid (msgs : List RemoteMsg) (init : List Nat) (u : Nat) :
    u ∈ msgs.foldl (fun l msg => setInsert l msg.uid) init ↔
      u ∈ init ∨ ∃ msg ∈ msgs, msg.uid = u := by
  induction msgs generalizing init with
  | nil => simp
  | cons msg tl ih =>
    rw [List.foldl_cons, ih, mem_setInsert]
    constructor
    · rintro ((h | h) | ⟨msg', hm, hu⟩)
      · exact Or.inl h
      · exact Or.inr ⟨msg, by simp, h.symm⟩
      · exact Or.inr ⟨msg', by simp [hm], hu⟩
    · rintro (h | ⟨msg', hm, hu⟩)
      · exact Or.inl (Or.inl h)
      · rcases List.mem_cons.mp hm with rfl | hm'
        · exact Or.inl (Or.inr hu.symm)
        · exact Or.inr ⟨msg', hm', hu⟩

theorem mem_foldl_setInsert_nat (us : List Nat) (init : List Nat) (u : Nat) :
    u ∈ us.foldl setInsert init ↔ u ∈ init ∨ u ∈ us := by
  induction us generalizing init with
  | nil => simp
  | cons v tl ih =>
    rw [List.foldl_cons, ih, mem_setInsert]
    constructor
    · rintro ((h | rfl) | h)
      · exact Or.inl h
      · exact Or.inr (by simp)
      · exact Or.inr (by simp [h])
    · rintro (h | h)
      · exact Or.inl (Or.inl h)
      · rcases List.mem_cons.mp h with rfl | h'
        · exact Or.inl (Or.inr rfl)
        · exact Or.inr h'

theorem mem_get_cached_uids {db : Db} {a m : String} {u : Nat} :
    u ∈ get_cached_uids db a m ↔
      ∃ r ∈ db.emails, r.account = a ∧ r.mailbox = m ∧ r.uid = u := by
  unfold get_cached_uids
  rw [List.mem_dedup]
  simp only [List.mem_map, List.mem_filter, emailScope, decide_eq_true_eq]
  constructor
  · rintro ⟨r, ⟨hr, ha, hm⟩, hu⟩
    exact ⟨r, hr, ha, hm, hu⟩
  · rintro ⟨r, hr, ha, hm, hu⟩
    exact ⟨r, ⟨hr, ha, hm⟩, hu⟩

theorem mem_cached_save (pd : String → Int) (a m : String) (e : Email) (db : Db) (u : Nat) :
    u ∈ get_cached_uids (save_email_to_db pd a m e db) a m ↔
      u = e.uid ∨ u ∈ get_cached_uids db a m := by
  rw [mem_get_cached_uids, mem_get_cached_uids]
  simp only [save_email_to_db, List.mem_append, List.mem_filter, List.mem_singleton]
  constructor
  · rintro ⟨r, ⟨hr, _⟩ | hr, ha, hm, hu⟩
    · exact Or.inr ⟨r, hr, ha, hm, hu⟩
    · subst hr
      exact Or.inl hu.symm
  · rintro (rfl | ⟨r, hr, ha, hm, hu⟩)
    · exact ⟨emailRowOf pd a m e, Or.inr rfl, rfl, rfl, rfl⟩
    · by_cases hk : emailKey a m e.uid r = true
      · simp only [emailKey, decide_eq_true_eq] at hk
        refine ⟨emailRowOf pd a m e, Or.inr rfl, rfl, rfl, ?_⟩
        rw [← hu, hk.2.2]
        rfl
      · exact ⟨r, Or.inl ⟨hr, by simp [hk]⟩, ha, hm, hu⟩

theorem mem_cached_delete (a m : String) (v : Nat) (db : Db) (u : Nat) :
    u ∈ get_cached_uids (delete_email_from_cache a m v db) a m ↔
      u ∈ get_cached_uids db a m ∧ u ≠ v := by
  rw [mem_get_cached_uids, mem_get_cached_uids]
  simp only [delete_email_from_cache, List.mem_filter]
  constructor
  · rintro ⟨r, ⟨hr, hk⟩, ha, hm, hu⟩
    simp only [Bool.not_eq_true', emailKey, decide_eq_false_iff_not] at hk
    refine ⟨⟨r, hr, ha, hm, hu⟩, ?_⟩
    rintro rfl
    exact hk ⟨ha, hm, hu⟩
  · rintro ⟨⟨r, hr, ha, hm, hu⟩, hne⟩
    refine ⟨r, ⟨hr, ?_⟩, ha, hm, hu⟩
    simp only [Bool.not_eq_true', emailKey, decide_eq_false_iff_not]
    rintro ⟨_, _, hu'⟩
    exact hne (hu ▸ hu' ▸ rfl)

theorem get_cached_uids_update_unread (a m : String) (v : Nat) (b : Bool) (db : Db)
    (a' m' : String) :
    get_cached_uids (update_unread_in_db a m v b db) a' m'
      = get_cached_uids db a' m' := by
  unfold get_cached_uids update_unread_in_db
  rw [List.filter_map, List.filter_congr (by
    intro r _
    show emailScope a' m' (if emailKey a m v r then { r with unread := b } else r)
      = emailScope a' m' r
    split <;> rfl)]
  rw [List.map_map, List.map_congr_left (by
    intro r _
    show (if emailKey a m v r then { r with unread := b } else r).uid = r.uid
    split <;> rfl)]

theorem get_cached_uids_update_body (a m : String) (v : Nat) (bh sn : String) (db : Db)
    (a' m' : String) :
    get_cached_uids (update_email_body_in_db a m v bh sn db) a' m'
      = get_cached_uids db a' m' := by
  unfold get_cached_uids update_email_body_in_db
  rw [List.filter_map, List.filter_congr (by
    intro r _
    show emailScope a' m'
        (if emailKey a m v r then { r with body_html := bh, snippet := sn } else r)
      = emailScope a' m' r
    split <;> rfl)]
  rw [List.map_map, List.map_congr_left (by
    intro r _
    show (if emailKey a m v r then { r with body_html := bh, snippet := sn } else r).uid
      = r.uid
    split <;> rfl)]

theorem get_cached_uids_update_flags (a m : String) (all : List (Nat × Bool × String))
    (cached : List Nat) (start : Nat × Db) (a' m' : String) :
    get_cached_uids (update_flags a m all cached start).2 a' m'
      = get_cached_uids start.2 a' m' := by
  induction all generalizing start with
  | nil => rfl
  | cons t tl ih =>
    show get_cached_uids (update_flags a m tl cached
        (update_flag_step a m cached start t)).2 a' m' = _
    rw [ih]
    unfold update_flag_step
    split
    · split
      · split
        · rfl
        · exact get_cached_uids_update_unread a m t.1 t.2.1 start.2 a' m'
      · rfl
    · rfl

theorem get_cached_uids_prefetch_fold (a m : String) (msgs : List RemoteMsg) (db : Db)
    (a' m' : String) :
    get_cached_uids (msgs.foldl (prefetch_step a m) db) a' m'
      = get_cached_uids db a' m' := by
  induction msgs generalizing db with
  | nil => rfl
  | cons msg tl ih =>
    rw [List.foldl_cons, ih]
    unfold prefetch_step
    split
    · exact get_cached_uids_update_body a m msg.uid _ _ db a' m'
    · rfl

theorem get_cached_uids_prefetch (rs : RemoteState) (a m : String) (db : Db)
    (a' m' : String) :
    get_cached_uids (prefetch_bodies rs a m db) a' m' = get_cached_uids db a' m' := by
  unfold prefetch_bodies
  dsimp only
  split
  · rfl
  · split
    · exact get_cached_uids_prefetch_fold a m _ db a' m'
    · rfl

theorem mem_cached_foldl_delete (a m : String) (l : List Nat) (db : Db) (u : Nat) :
    u ∈ get_cached_uids (l.foldl (fun d v => delete_email_from_cache a m v d) db) a m ↔
      u ∈ get_cached_uids db a m ∧ u ∉ l := by
  induction l generalizing db with
  | nil => simp
  | cons v tl ih =>
    rw [List.foldl_cons, ih, mem_cached_delete]
    constructor
    · rintro ⟨⟨hc, hne⟩, hnt⟩
      exact ⟨hc, by simp [hne, hnt]⟩
    · rintro ⟨hc, hn⟩
      simp only [List.mem_cons, not_or] at hn
      exact ⟨⟨hc, hn.1⟩, hn.2⟩

theorem mem_cached_save_fetched (pd : String → Int) (a m : String)
    (acc : Option String × Nat × Db) (msg : RemoteMsg) (u : Nat)
    (hm : msg.content.isSome) :
    u ∈ get_cached_uids (save_fetched pd a m acc msg).2.2 a m ↔
      u = msg.uid ∨ u ∈ get_cached_uids acc.2.2 a m := by
  obtain ⟨c, hc⟩ := Option.isSome_iff_exists.mp hm
  unfold save_fetched parse_email_body
  rw [hc]
  simp only [Option.map_some']
  rw [mem_cached_save]

theorem mem_cached_save_fetched_fold (pd : String → Int) (a m : String)
    (msgs : List RemoteMsg) (acc : Option String × Nat × Db) (u : Nat)
    (hp : ∀ msg ∈ msgs, msg.content.isSome) :
    u ∈ get_cached_uids ((msgs.foldl (save_fetched pd a m) acc).2.2) a m ↔
      u ∈ get_cached_uids acc.2.2 a m ∨ ∃ msg ∈ msgs, msg.uid = u := by
  induction msgs generalizing acc with
  | nil => simp
  | cons msg tl ih =>
    rw [List.foldl_cons, ih _ (fun msg' h' => hp msg' (by simp [h']))]
    rw [mem_cached_save_fetched pd a m acc msg u (hp msg (by simp))]
    constructor
    · rintro ((rfl | h) | ⟨msg', hm, hu⟩)
      · exact Or.inr ⟨msg, by simp, rfl⟩
      · exact Or.inl h
      · exact Or.inr ⟨msg', by simp [hm], hu⟩
    · rintro (h | ⟨msg', hm, hu⟩)
      · exact Or.inl (Or.inr h)
      · rcases List.mem_cons.mp hm with rfl | hm'
        · exact Or.inl (Or.inl hu.symm)
        · exact Or.inr ⟨msg', hm', hu⟩

theorem download_batch_fst_none (pd : String → Int) (rs : RemoteState) (a m : String)
    (acc : Option String × Nat × Db) (ic : Nat × List Nat)
    (hacc : acc.1 = none) (hff : rs.fullFetchErr ic.1 = none) :
    (download_batch pd rs a m acc ic).1 = none := by
  unfold download_batch
  rw [hacc, hff]
  exact save_fetched_preserves_none pd a m _ acc hacc

theorem mem_cached_download_batch (pd : String → Int) (rs : RemoteState) (a m : String)
    (acc : Option String × Nat × Db) (ic : Nat × List Nat) (u : Nat)
    (hacc : acc.1 = none) (hff : rs.fullFetchErr ic.1 = none)
    (hp : ∀ msg ∈ rs.msgs, msg.content.isSome) :
    u ∈ get_cached_uids (download_batch pd rs a m acc ic).2.2 a m ↔
      u ∈ get_cached_uids acc.2.2 a m ∨
        (u ∈ ic.2 ∧ ∃ msg ∈ rs.msgs, msg.uid = u) := by
  unfold download_batch
  rw [hacc, hff]
  dsimp only
  rw [mem_cached_save_fetched_fold pd a m (uidFetch rs ic.2) acc u
    (fun msg h => hp msg (List.mem_filter.mp h).1)]
  unfold uidFetch
  constructor
  · rintro (h | ⟨msg, hm, hu⟩)
    · exact Or.inl h
    · obtain ⟨hmsg, hin⟩ := List.mem_filter.mp hm
      simp only [decide_eq_true_eq] at hin
      exact Or.inr ⟨hu ▸ hin, msg, hmsg, hu⟩
  · rintro (h | ⟨hin, msg, hmsg, hu⟩)
    · exact Or.inl h
    · refine Or.inr ⟨msg, List.mem_filter.mpr ⟨hmsg, ?_⟩, hu⟩
      simp only [decide_eq_true_eq]
      exact hu ▸ hin

theorem mem_cached_download_fold (pd : String → Int) (rs : RemoteState) (a m : String)
    (u : Nat) (l : List (Nat × List Nat)) (acc : Option String × Nat × Db)
    (hacc : acc.1 = none) (h2 : ∀ i, rs.fullFetchErr i = none)
    (hp : ∀ msg ∈ rs.msgs, msg.content.isSome) :
    u ∈ get_cached_uids ((l.foldl (download_batch pd rs a m) acc).2.2) a m ↔
      u ∈ get_cached_uids acc.2.2 a m ∨
        ∃ c ∈ l, u ∈ c.2 ∧ ∃ msg ∈ rs.msgs, msg.uid = u := by
  induction l generalizing acc with
  | nil => simp
  | cons ic tl ih =>
    rw [List.foldl_cons,
      ih _ (download_batch_fst_none pd rs a m acc ic hacc (h2 ic.1)),
      mem_cached_download_batch pd rs a m acc ic u hacc (h2 ic.1) hp]
    constructor
    · rintro ((h | ⟨hin, hP⟩) | ⟨c, hc, hu, hP⟩)
      · exact Or.inl h
      · exact Or.inr ⟨ic, by simp, hin, hP⟩
      · exact Or.inr ⟨c, by simp [hc], hu, hP⟩
    · rintro (h | ⟨c, hc, hu, hP⟩)
      · exact Or.inl (Or.inl h)
      · rcases List.mem_cons.mp hc with rfl | hc'
        · exact Or.inl (Or.inr ⟨hu, hP⟩)
        · exact Or.inr ⟨c, hc', hu, hP⟩

theorem chunksOfFuel_flatten (n : Nat) (hn : 0 < n) :
    ∀ (fuel : Nat) (l : List Nat), l.length ≤ fuel →
      (chunksOfFuel n fuel l).flatten = l := by
  intro fuel
  induction fuel with
  | zero =>
    intro l hl
    have h0 : l = [] := List.eq_nil_of_length_eq_zero (Nat.le_zero.mp hl)
    subst h0
    rfl
  | succ fuel ih =>
    intro l hl
    cases l with
    | nil => rfl
    | cons x xs =>
      rw [chunksOfFuel, List.flatten_cons,
        ih _ (by simp only [List.length_drop, List.length_cons]; simp at hl; omega)]
      exact List.take_append_drop n (x :: xs)

theorem chunksOf_flatten (n : Nat) (hn : 0 < n) (l : List Nat) :
    (chunksOf n l).flatten = l :=
  chunksOfFuel_flatten n hn l.length l le_rfl

theorem exists_mem_enumFrom_of_mem {α : Type} {x : α} {l : List α} (h : x ∈ l) :
    ∀ n, ∃ i, (i, x) ∈ l.enumFrom n := by
  induction l with
  | nil => cases h
  | cons a t ih =>
    intro n
    rcases List.mem_cons.mp h with rfl | h'
    · exact ⟨n, by simp [List.enumFrom]⟩
    · obtain ⟨i, hi⟩ := ih h' (n + 1)
      exact ⟨i, by simp [List.enumFrom, hi]⟩

theorem mem_cached_download (pd : String → Int) (rs : RemoteState) (a m : String)
    (nu : List Nat) (db : Db) (u : Nat)
    (h2 : ∀ i, rs.fullFetchErr i = none)
    (hp : ∀ msg ∈ rs.msgs, msg.content.isSome) :
    u ∈ get_cached_uids (download_new_emails pd rs a m nu db).2.2 a m ↔
      u ∈ get_cached_uids db a m ∨ (u ∈ nu ∧ ∃ msg ∈ rs.msgs, msg.uid = u) := by
  unfold download_new_emails
  split
  · next hemp =>
    rw [List.isEmpty_iff.mp hemp]
    simp
  · rw [mem_cached_download_fold pd rs a m u _ _ rfl h2 hp]
    have hiff : (∃ c ∈ (chunksOf 50 nu).enum, u ∈ c.2 ∧ ∃ msg ∈ rs.msgs, msg.uid = u) ↔
        (u ∈ nu ∧ ∃ msg ∈ rs.msgs, msg.uid = u) := by
      constructor
      · rintro ⟨c, hc, hu, hP⟩
        have hch : c.2 ∈ chunksOf 50 nu := List.snd_mem_of_mem_enumFrom hc
        have hfl : u ∈ (chunksOf 50 nu).flatten :=
          List.mem_flatten.mpr ⟨c.2, hch, hu⟩
        rw [chunksOf_flatten 50 (by omega)] at hfl
        exact ⟨hfl, hP⟩
      · rintro ⟨hnu, hP⟩
        have hfl : u ∈ (chunksOf 50 nu).flatten := by
          rw [chunksOf_flatten 50 (by omega)]
          exact hnu
        obtain ⟨ch, hch, hu⟩ := List.mem_flatten.mp hfl
        obtain ⟨i, hi⟩ := exists_mem_enumFrom_of_mem hch 0
        exact ⟨(i, ch), hi, hu, hP⟩
    rw [hiff]

theorem mem_cached_delete_stale (a m : String) (suids : List Nat) (db : Db) (u : Nat) :
    u ∈ get_cached_uids (delete_stale_emails a m suids db).2 a m ↔
      u ∈ get_cached_uids db a m ∧ u ∈ suids := by
  unfold delete_stale_emails
  rw [mem_cached_foldl_delete]
  simp only [List.mem_filter, decide_eq_true_eq]
  constructor
  · rintro ⟨hc, hn⟩
    refine ⟨hc, ?_⟩
    by_contra hns
    exact hn ⟨hc, hns⟩
  · rintro ⟨hc, hs⟩
    exact ⟨hc, fun ⟨_, hns⟩ => hns hs⟩

theorem get_cached_uids_metadata (a m : String) (uv : Nat) (now : Int) (db : Db)
    (a' m' : String) :
    get_cached_uids (save_mailbox_metadata a m uv now db) a' m'
      = get_cached_uids db a' m' := rfl

theorem mem_candidateA (rs : RemoteState) (u : Nat) :
    u ∈ candidateA rs ↔ ∃ msg ∈ step_one_window rs, msg.uid = u := by
  simp [candidateA]

theorem candidateA_sub_msgs (rs : RemoteState) (u : Nat) (h : u ∈ candidateA rs) :
    ∃ msg ∈ rs.msgs, msg.uid = u := by
  rw [mem_candidateA] at h
  obtain ⟨msg, hm, hu⟩ := h
  have hsub : step_one_window rs ⊆ rs.msgs := by
    unfold step_one_window
    exact List.drop_subset _ _
  exact ⟨msg, hsub hm, hu⟩

theorem mem_fetched0 (rs : RemoteState) (u : Nat) :
    u ∈ fetched0_uids rs ↔ u ∈ candidateA rs := by
  unfold fetched0_uids
  rw [mem_foldl_setInsert_uid, mem_candidateA]
  simp

theorem mem_since_hits (rs : RemoteState) (bs : List Nat) (hs : rs.sinceRes = .ok bs)
    (u : Nat) : u ∈ since_hits rs ↔ u ∈ bs := by
  unfold since_hits
  rw [hs]
  dsimp only
  rw [mem_foldl_setInsert_nat]
  simp

theorem mem_missing (rs : RemoteState) (bs : List Nat) (hs : rs.sinceRes = .ok bs)
    (u : Nat) : u ∈ missing_uids rs ↔ u ∈ bs ∧ u ∉ candidateA rs := by
  unfold missing_uids
  rw [List.mem_filter]
  simp only [decide_eq_true_eq]
  rw [mem_since_hits rs bs hs, mem_fetched0]

theorem mem_step_three (rs : RemoteState) (bs : List Nat) (hs : rs.sinceRes = .ok bs)
    (hmf : rs.missingFetchOk = true) (u : Nat) :
    (∃ msg ∈ step_three_msgs rs, msg.uid = u) ↔
      (u ∈ bs ∧ u ∉ candidateA rs) ∧ ∃ msg ∈ rs.msgs, msg.uid = u := by
  unfold step_three_msgs
  by_cases hemp : (missing_uids rs).isEmpty
  · rw [if_pos hemp]
    have hempty : missing_uids rs = [] := List.isEmpty_iff.mp hemp
    have hmm := mem_missing rs bs hs u
    rw [hempty] at hmm
    simp only [List.not_mem_nil, false_iff] at hmm
    constructor
    · rintro ⟨msg, hm, _⟩
      exact absurd hm (List.not_mem_nil msg)
    · rintro ⟨hba, _⟩
      exact (hmm hba).elim
  · rw [if_neg hemp]
    have hif : (if rs.missingFetchOk then uidFetch rs (missing_uids rs) else [])
        = uidFetch rs (missing_uids rs) := by
      simp [hmf]
    rw [hif]
    unfold uidFetch
    constructor
    · rintro ⟨msg, hm, hu⟩
      obtain ⟨hmsg, hin⟩ := List.mem_filter.mp hm
      simp only [decide_eq_true_eq] at hin
      have hmem : u ∈ missing_uids rs := hu ▸ hin
      rw [mem_missing rs bs hs] at hmem
      exact ⟨hmem, msg, hmsg, hu⟩
    · rintro ⟨hmiss, msg, hmsg, hu⟩
      refine ⟨msg, List.mem_filter.mpr ⟨hmsg, ?_⟩, hu⟩
      simp only [decide_eq_true_eq]
      exact hu ▸ ((mem_missing rs bs hs u).mpr hmiss)

theorem gather_fst_mem (rs : RemoteState) (bs : List Nat) (hs : rs.sinceRes = .ok bs)
    (hbs : ∀ u ∈ bs, ∃ msg ∈ rs.msgs, msg.uid = u)
    (hmf : rs.missingFetchOk = true) (u : Nat) :
    u ∈ (gather_candidates rs).1 ↔ u ∈ candidateA rs ∨ u ∈ bs := by
  unfold gather_candidates
  dsimp only
  rw [mem_foldl_setInsert_uid, mem_fetched0, mem_step_three rs bs hs hmf]
  constructor
  · rintro (h | ⟨⟨hb, _⟩, _⟩)
    · exact Or.inl h
    · exact Or.inr hb
  · rintro (h | hb)
    · exact Or.inl h
    · by_cases hA : u ∈ candidateA rs
      · exact Or.inl hA
      · exact Or.inr ⟨⟨hb, hA⟩, hbs u hb⟩

theorem gather_snd_mem (rs : RemoteState) (bs : List Nat) (hs : rs.sinceRes = .ok bs)
    (hbs : ∀ u ∈ bs, ∃ msg ∈ rs.msgs, msg.uid = u)
    (hmf : rs.missingFetchOk = true) (u : Nat) :
    (∃ t ∈ (gather_candidates rs).2, t.1 = u) ↔ u ∈ candidateA rs ∨ u ∈ bs := by
  unfold gather_candidates
  dsimp only
  constructor
  · rintro ⟨t, ht, hu⟩
    rcases List.mem_append.mp ht with h | h
    · obtain ⟨msg, hm, rfl⟩ := List.mem_map.mp h
      left
      rw [mem_candidateA]
      exact ⟨msg, hm, hu⟩
    · obtain ⟨msg, hm, rfl⟩ := List.mem_map.mp h
      exact Or.inr ((mem_step_three rs bs hs hmf u).mp ⟨msg, hm, hu⟩).1.1
  · rintro (h | hb)
    · rw [mem_candidateA] at h
      obtain ⟨msg, hm, hu⟩ := h
      exact ⟨(msg.uid, msg.unread, msg.internalDate),
        List.mem_append.mpr (Or.inl (List.mem_map.mpr ⟨msg, hm, rfl⟩)), hu⟩
    · by_cases hA : u ∈ candidateA rs
      · rw [mem_candidateA] at hA
        obtain ⟨msg, hm, hu⟩ := hA
        exact ⟨(msg.uid, msg.unread, msg.internalDate),
          List.mem_append.mpr (Or.inl (List.mem_map.mpr ⟨msg, hm, rfl⟩)), hu⟩
      · obtain ⟨msg, hm, hu⟩ := (mem_step_three rs bs hs hmf u).mpr ⟨⟨hb, hA⟩, hbs u hb⟩
        exact ⟨(msg.uid, msg.unread, msg.internalDate),
          List.mem_append.mpr (Or.inr (List.mem_map.mpr ⟨msg, hm, rfl⟩)), hu⟩

/-- C2: on a non-empty fixed remote mailbox state in which every remote
fetch succeeds (including the SINCE search, whose hits all exist in the
mailbox) and every fetched message parses, one pass of
sync_emails_with_session leaves the cached uid set for (account, mailbox)
exactly equal to the candidate set: the count-bounded window A united with
the time-bounded hit set B. -/
theorem c2_eviction_completeness (pd : String → Int) (rs : RemoteState) (a m : String)
    (now : Int) (db : Db) (bs : List Nat)
    (hne : rs.msgs ≠ [])
    (h1 : rs.fetchSeqErr = none)
    (hs : rs.sinceRes = .ok bs)
    (hbs : ∀ u ∈ bs, ∃ msg ∈ rs.msgs, msg.uid = u)
    (hmf : rs.missingFetchOk = true)
    (h2 : ∀ i, rs.fullFetchErr i = none)
    (hp : ∀ msg ∈ rs.msgs, msg.content.isSome) :
    ∀ u, u ∈ get_cached_uids (sync_emails_with_session pd rs a m now db).2 a m ↔
      (u ∈ candidateA rs ∨ u ∈ bs) := by
  intro u
  unfold sync_emails_with_session
  split
  · next h0 => exact absurd (List.eq_nil_of_length_eq_zero h0) hne
  · split
    · next e' heq =>
      rw [h1] at heq
      cases heq
    · dsimp only
      split
      · next heq =>
        have hd := download_new_emails_fst_none pd rs a m
          (((gather_candidates rs).2.filter
            (fun t => decide (t.1 ∉ get_cached_uids db a m))).map (fun x => x.1)) db h2
        rw [heq] at hd
        simp at hd
      · next nc db1 heq =>
        rw [get_cached_uids_metadata, get_cached_uids_prefetch, mem_cached_delete_stale,
          get_cached_uids_update_flags]
        have hdl : u ∈ get_cached_uids db1 a m ↔
            u ∈ get_cached_uids db a m ∨
              (u ∈ ((gather_candidates rs).2.filter
                (fun t => decide (t.1 ∉ get_cached_uids db a m))).map (fun x => x.1) ∧
                ∃ msg ∈ rs.msgs, msg.uid = u) := by
          have hmc := mem_cached_download pd rs a m
            (((gather_candidates rs).2.filter
              (fun t => decide (t.1 ∉ get_cached_uids db a m))).map (fun x => x.1))
            db u h2 hp
          rw [heq] at hmc
          exact hmc
        rw [hdl, gather_fst_mem rs bs hs hbs hmf]
        have hnew : u ∈ ((gather_candidates rs).2.filter
            (fun t => decide (t.1 ∉ get_cached_uids db a m))).map (fun x => x.1) ↔
            ((u ∈ candidateA rs ∨ u ∈ bs) ∧ u ∉ get_cached_uids db a m) := by
          simp only [List.mem_map, List.mem_filter, decide_eq_true_eq]
          constructor
          · rintro ⟨t, ⟨ht, hnc⟩, rfl⟩
            exact ⟨(gather_snd_mem rs bs hs hbs hmf t.1).mp ⟨t, ht, rfl⟩, hnc⟩
          · rintro ⟨hc, hnc⟩
            obtain ⟨t, ht, hu⟩ := (gather_snd_mem rs bs hs hbs hmf u).mpr hc
            exact ⟨t, ⟨ht, hu ▸ hnc⟩, hu⟩
        rw [hnew]
        constructor
        · rintro ⟨_, hcand⟩
          exact hcand
        · intro hcand
          refine ⟨?_, hcand⟩
          by_cases hc0 : u ∈ get_cached_uids db a m
          · exact Or.inl hc0
          · refine Or.inr ⟨⟨hcand, hc0⟩, ?_⟩
            rcases hcand with hA | hB
            · exact candidateA_sub_msgs rs u hA
            · exact hbs u hB

/-- C2 counterexample: on an empty remote mailbox the sync returns before
the eviction step, so a stale cached uid (42) survives even though the
candidate set A union B is empty. -/
theorem c2_empty_mailbox_counterexample :
    get_cached_uids (sync_emails_with_session wPd wRsEmpty "a" "INBOX" 5 wDb42).2
        "a" "INBOX" = [42] ∧
    candidateA wRsEmpty = [] ∧ wRsEmpty.sinceRes = .ok ([] : List Nat) :=
  ⟨by decide, rfl, rfl⟩

/-- C2 witness: after a successful pass over the one-message remote state,
uid 1 is cached (it is in set A) and the stale uid 42 is evicted. -/
theorem c2_eviction_completeness_witness :
    (1 ∈ get_cached_uids (sync_emails_with_session wPd wRs1 "a" "INBOX" 5 wDb42).2
        "a" "INBOX" ↔ (1 ∈ candidateA wRs1 ∨ 1 ∈ ([] : List Nat))) ∧
    (42 ∈ get_cached_uids (sync_emails_with_session wPd wRs1 "a" "INBOX" 5 wDb42).2
        "a" "INBOX" ↔ (42 ∈ candidateA wRs1 ∨ 42 ∈ ([] : List Nat))) :=
  have h := c2_eviction_completeness wPd wRs1 "a" "INBOX" 5 wDb42 []
    (by decide) rfl rfl (by simp) rfl (fun _ => rfl) (by decide)
  ⟨h 1, h 42⟩

/-! ## The two own-connection sync entry points -/

/-- C1 counterexample: on the same remote state and cache, sync_emails and
sync_emails_with_session disagree: sync_emails fetches the whole mailbox
(1:*), never evicts (deleted_emails = 0) and leaves the stale uid 42
cached, while the bounded-window engine evicts it and reports the
eviction. -/
theorem c1_sync_entrypoints_counterexample :
    (sync_emails wPd none none wRs1 "a" "INBOX" wDb42).1
      = .ok ⟨1, 0, 1, 0⟩ ∧
    (sync_emails_with_session wPd wRs1 "a" "INBOX" 5 wDb42).1
      = .ok ⟨1, 0, 1, 1⟩ ∧
    get_cached_uids (sync_emails wPd none none wRs1 "a" "INBOX" wDb42).2 "a" "INBOX"
      = [42, 1] ∧
    get_cached_uids (sync_emails_with_session wPd wRs1 "a" "INBOX" 5 wDb42).2 "a" "INBOX"
      = [1] :=
  ⟨by decide, by decide, by decide, by decide⟩

/-- C1 (amended): the entry point that acquires its own connection and runs
the identical bounded-window algorithm is sync_emails_improved: with the
acquisition and the final logout succeeding it computes exactly the same
result and the same cache state as sync_emails_with_session on every
account, mailbox, remote state and cache; when acquisition fails it only
returns that error with the cache untouched. -/
theorem c1_improved_entrypoint_equivalence (pd : String → Int) (rs : RemoteState)
    (a m : String) (now : Int) (db : Db) :
    (sync_emails_improved pd none none rs a m now db
      = sync_emails_with_session pd rs a m now db) ∧
    (∀ e logoutErr, sync_emails_improved pd (some e) logoutErr rs a m now db
      = (.error e, db)) := by
  constructor
  · unfold sync_emails_improved sync_emails_with_session
    rfl
  · intro e logoutErr
    rfl

end Maily
